import Mathlib

/-!
# wave: a verification development of `src/wave/file.cc`

Shallow embedding of `wave::File` (the PCM WAVE codec of this repository) and of
the parts of its environment the code touches: the byte-addressed header
object, the file store, and the binary32 arithmetic of the sample conversions.

Conventions of the embedding

* a byte is a `Fin 256`; an unsigned machine integer of width `w` is a `Fin (2^w)`,
  with every narrowing store written as an explicit `% 2^w`;
* the storage layer is a map from paths to byte contents (`none`: the path cannot
  be opened for reading) together with the set of paths an output stream can open;
* `float` values are the rationals they denote; every float operation is the exact
  operation followed by `f32round`, round-to-nearest-even on a 24-bit significand
  (IEEE-754 binary32, evaluated in single precision);
* behaviour the language leaves undefined and that stops the program (integer
  division by zero) is the outcome `Except.error`; an object read before it was written
  is the sample `Sample.indeterminate`; the value of an out-of-range
  float-to-integer conversion is taken from a parameter.
-/

namespace Wave

/-! ## Bytes and little-endian integers -/

abbrev Byte := Fin 256

/-- The low byte of a natural number. -/
def lowByte (n : Nat) : Byte := ⟨n % 256, Nat.mod_lt _ (by decide)⟩

/-- The `k` little-endian bytes of the object representation of `n`. -/
def leBytes : Nat → Nat → List Byte
  | 0, _ => []
  | k + 1, n => lowByte n :: leBytes k (n / 256)

/-- The unsigned integer whose little-endian object representation is `bs`. -/
def leNat : List Byte → Nat
  | [] => 0
  | b :: bs => b.val + 256 * leNat bs

/-- Reading of a `w`-bit pattern as a two's complement signed integer. -/
def toSigned (w : Nat) (n : Nat) : Int :=
  if n < 2 ^ (w - 1) then (n : Int) else (n : Int) - 2 ^ w

/-- The `w`-bit two's complement pattern of an integer. -/
def ofSigned (w : Nat) (v : Int) : Nat := (v % 2 ^ w).toNat

abbrev U16 := Fin 65536
abbrev U32 := Fin 4294967296

/-- Store into a `uint16_t`: reduction modulo `2^16`. -/
def u16 (n : Nat) : U16 := ⟨n % 65536, Nat.mod_lt _ (by decide)⟩

/-- Store into a `uint32_t`: reduction modulo `2^32`. -/
def u32 (n : Nat) : U32 := ⟨n % 4294967296, Nat.mod_lt _ (by decide)⟩

/-! ## The header object (`wave/headers.h`) -/

/-- Modelled from the spec: a 4-byte id field (`char[4]`) of the header; the
declaration in `wave/headers.h` is not part of the sources at hand, the spec
gives it as 4 bytes of text. -/
structure Tag where
  c0 : Byte
  c1 : Byte
  c2 : Byte
  c3 : Byte
  deriving DecidableEq, Repr

/-- Modelled from the spec: the RIFF chunk of `WAVEHeader` (`wave/headers.h` is
missing): chunk id, chunk size (uint32), format tag. Field names are the ones
`file.cc` uses. -/
structure RIFFHeader where
  chunk_id : Tag
  chunk_size : U32
  format : Tag
  deriving DecidableEq, Repr

/-- Modelled from the spec: the fmt chunk of `WAVEHeader` (`wave/headers.h` is
missing): sub-chunk id, sub-chunk size (uint32), audio format tag (uint16),
channel count (uint16), sample rate (uint32), byte rate (uint32), block align
(uint16), bits per sample (uint16). `sub_chunk_1_size` and `audio_format` are
never named by `file.cc`; their names are chosen here. -/
structure FMTHeader where
  sub_chunk_1_id : Tag
  sub_chunk_1_size : U32
  audio_format : U16
  num_channel : U16
  sample_rate : U32
  byte_rate : U32
  byte_per_block : U16
  bits_per_sample : U16
  deriving DecidableEq, Repr

/-- Modelled from the spec: the data chunk of `WAVEHeader` (`wave/headers.h` is
missing): sub-chunk id and sub-chunk size (uint32). -/
structure DataHeader where
  sub_chunk_2_id : Tag
  sub_chunk_2_size : U32
  deriving DecidableEq, Repr

/-- Modelled from the spec: the 44-byte header, three chunks in wire order
(`wave/headers.h` is missing). -/
structure WAVEHeader where
  riff : RIFFHeader
  fmt : FMTHeader
  data : DataHeader
  deriving DecidableEq, Repr

/-- The constant `sizeof(WAVEHeader)`. -/
def sizeofWAVEHeader : Nat := 44

def Tag.toBytes (t : Tag) : List Byte := [t.c0, t.c1, t.c2, t.c3]

def Tag.ofBytes (bs : List Byte) : Tag :=
  ⟨bs.getD 0 0, bs.getD 1 0, bs.getD 2 0, bs.getD 3 0⟩

/-- Object representation of the header: the 44 bytes that
`reinterpret_cast<char*>(&header)` addresses, in the layout of the wire table
(offsets 0, 4, 8, 12, 16, 20, 22, 24, 28, 32, 34, 36, 40). -/
def WAVEHeader.toBytes (h : WAVEHeader) : List Byte :=
  h.riff.chunk_id.toBytes ++ leBytes 4 h.riff.chunk_size.val ++ h.riff.format.toBytes
    ++ h.fmt.sub_chunk_1_id.toBytes ++ leBytes 4 h.fmt.sub_chunk_1_size.val
    ++ leBytes 2 h.fmt.audio_format.val ++ leBytes 2 h.fmt.num_channel.val
    ++ leBytes 4 h.fmt.sample_rate.val ++ leBytes 4 h.fmt.byte_rate.val
    ++ leBytes 2 h.fmt.byte_per_block.val ++ leBytes 2 h.fmt.bits_per_sample.val
    ++ h.data.sub_chunk_2_id.toBytes ++ leBytes 4 h.data.sub_chunk_2_size.val

/-- The bytes `bs[off .. off+len)`. -/
def slice (bs : List Byte) (off len : Nat) : List Byte := (bs.drop off).take len

/-- The header whose object representation is the first 44 bytes of `bs`. -/
def WAVEHeader.ofBytes (bs : List Byte) : WAVEHeader where
  riff :=
    { chunk_id := Tag.ofBytes (slice bs 0 4)
      chunk_size := u32 (leNat (slice bs 4 4))
      format := Tag.ofBytes (slice bs 8 4) }
  fmt :=
    { sub_chunk_1_id := Tag.ofBytes (slice bs 12 4)
      sub_chunk_1_size := u32 (leNat (slice bs 16 4))
      audio_format := u16 (leNat (slice bs 20 2))
      num_channel := u16 (leNat (slice bs 22 2))
      sample_rate := u32 (leNat (slice bs 24 4))
      byte_rate := u32 (leNat (slice bs 28 4))
      byte_per_block := u16 (leNat (slice bs 32 2))
      bits_per_sample := u16 (leNat (slice bs 34 2)) }
  data :=
    { sub_chunk_2_id := Tag.ofBytes (slice bs 36 4)
      sub_chunk_2_size := u32 (leNat (slice bs 40 4)) }

/-! ## Storage and the codec instance -/

/-- The byte-stream collaborator: `content p` is what an input stream opened on
`p` delivers (`none`: the stream does not open), `writable p` tells whether an
output stream opens on `p`. -/
structure Storage where
  content : String → Option (List Byte)
  writable : String → Bool

/-- Effect of a truncating output stream on `path` that is closed after `bs`
was written. -/
def Storage.put (s : Storage) (path : String) (bs : List Byte) : Storage :=
  { s with content := fun p => if p = path then some bs else s.content p }

/-- The class `File::Impl`. -/
structure File where
  path : String
  header : WAVEHeader

/-- The values of `std::errc` the code assigns. -/
inductive Errc where
  | bad_file_descriptor
  | not_supported
  | io_error
  deriving DecidableEq, Repr

/-- The outcomes that end the program instead of returning. -/
inductive Fault where
  | division_by_zero
  deriving DecidableEq, Repr

/-! ## binary32 arithmetic

A finite `float` is the rational it denotes. Every operation is the exact
rational operation followed by `f32round`. Results whose magnitude exceeds the
binary32 range stay finite here; the code only ever converts them to an integer
type, where they are out of range like the infinities they stand for. -/

/-- Round to the nearest integer, ties to the even one. -/
def roundHalfEven (t : ℚ) : Int :=
  let f := ⌊t⌋
  let r := t - f
  if r < 1 / 2 then f
  else if 1 / 2 < r then f + 1
  else if f % 2 = 0 then f else f + 1

/-- Exponent of the binade of `x`, not below the least normal exponent. -/
def f32exp (x : ℚ) : Int := max (Int.log 2 |x|) (-126)

/-- The unit in the last place of the binade of `x`: 24 significand bits. -/
def f32ulp (x : ℚ) : ℚ := 2 ^ (f32exp x - 23)

/-- Rounding of an exact result to binary32, round-to-nearest-even. -/
def f32round (x : ℚ) : ℚ := (roundHalfEven (x / f32ulp x) : ℚ) * f32ulp x

/-- The conversion `static_cast<float>(v)` of an integer. -/
def f32ofInt (v : Int) : ℚ := f32round v

/-- The float quotient `a / b`. -/
def f32div (a b : ℚ) : ℚ := f32round (a / b)

/-- The float product `a * b`. -/
def f32mul (a b : ℚ) : ℚ := f32round (a * b)

/-- The value `std::numeric_limits<intw_t>::max()`. -/
def int_max (w : Nat) : Int := 2 ^ (w - 1) - 1

/-- Truncation toward zero, the value of a float-to-integer conversion. -/
def truncToZero (x : ℚ) : Int := if 0 ≤ x then ⌊x⌋ else ⌈x⌉

/-- The conversion `static_cast<intw_t>(x)` of a float: the truncated value when
the destination type can hold it; the language leaves the other case undefined
and `oor` supplies what the platform delivers there. -/
def castInt (oor : ℚ → Int) (w : Nat) (x : ℚ) : Int :=
  if -(2 ^ (w - 1)) ≤ truncToZero x ∧ truncToZero x < 2 ^ (w - 1) then truncToZero x
  else oor x

/-- The expression `static_cast<float>(value) / std::numeric_limits<intw_t>::max()`
of `File::Read`: both operands are converted to `float`, then divided. -/
def decodeSample (w : Nat) (value : Int) : ℚ :=
  f32div (f32ofInt value) (f32ofInt (int_max w))

/-- The expression `static_cast<intw_t>(sample * std::numeric_limits<intw_t>::max())`
of `File::Write`: the limit is converted to `float`, the product is a float
product, the conversion truncates. -/
def encodeSample (oor : ℚ → Int) (w : Nat) (sample : ℚ) : Int :=
  castInt oor w (f32mul sample (f32ofInt (int_max w)))

/-! ## Input streams -/

/-- An input stream: the bytes not yet consumed and the state flag. -/
structure IStream where
  rest : List Byte
  good : Bool

/-- The call `stream.read(p, k)`: the bytes stored at `p` and the stream after
the call. A stream that already failed stores nothing; when fewer than `k` bytes
are left they are stored and the stream fails. -/
def IStream.read (st : IStream) (k : Nat) : List Byte × IStream :=
  if st.good then
    if k ≤ st.rest.length then (st.rest.take k, ⟨st.rest.drop k, true⟩)
    else (st.rest, ⟨[], false⟩)
  else ([], st)

/-- An element of the vector `File::Read` returns: a float, or the conversion of
a local `value` that no read has filled. -/
inductive Sample where
  | value (x : ℚ)
  | indeterminate
  deriving DecidableEq, Repr

/-- The float stored in `result[sample_idx]` after `stream.read` stored `got`
into the `w`-bit local `value`. -/
def sampleOf (w : Nat) (got : List Byte) : Sample :=
  if got.length = w / 8 then Sample.value (decodeSample w (toSigned w (leNat got)))
  else Sample.indeterminate

/-! ## `File::Open`, `File::ReadHeader` and the accessors -/

/-- The function `File::ReadHeader`: the instance afterwards and the `int` returned. -/
def ReadHeader (s : Storage) (f : File) : File × Int :=
  match s.content f.path with
  | none => (f, 0)
  | some bytes =>
    let file_size := bytes.length
    let f1 : File :=
      if sizeofWAVEHeader ≤ file_size then
        { f with header := WAVEHeader.ofBytes (bytes.take sizeofWAVEHeader) }
      else f
    (f1, toSigned 32 (file_size % 2 ^ 32))

/-- The function `File::Open(const std::string&)`. -/
def Open (s : Storage) (f : File) (path : String) : File :=
  (ReadHeader s { f with path := path }).1

/-- The characters `std::string(p)` holds for a `char*` into `mem` at `off`: the
bytes up to the first zero byte. -/
def cstr (mem : List Byte) (off : Nat) : List Byte :=
  (mem.drop off).takeWhile (fun b => b ≠ 0)

/-- The literal `"RIFF"`. -/
def RIFF : List Byte := [82, 73, 70, 70]
/-- The literal `"WAVE"`. -/
def WAVE : List Byte := [87, 65, 86, 69]
/-- The literal `"fmt "`. -/
def FMT : List Byte := [102, 109, 116, 32]
/-- The literal `"data"`. -/
def DATA : List Byte := [100, 97, 116, 97]

/-- Conversion of an `int` to `size_t` for the comparison with `sizeof`. -/
def toSizeT (i : Int) : Nat := (i % 2 ^ 64).toNat

/-- The function `File::Open(const std::string&, std::error_code&)`: the instance
afterwards and the value assigned to `err`, `none` when `err` is not assigned.
The id fields are `char[4]` members handed to `std::string(const char*)`, which
reads on through the header object up to the first zero byte; for each of the
four fields the byte four places on lies inside the 44-byte object, and it alone
decides whether the string stops at length 4. -/
def OpenErr (s : Storage) (f : File) (path : String) : File × Option Errc :=
  let f1 := Open s f path
  let r := ReadHeader s f1
  let f2 := r.1
  let size_read := r.2
  if toSizeT size_read < sizeofWAVEHeader then (f2, some Errc.bad_file_descriptor)
  else if cstr f2.header.toBytes 0 ≠ RIFF then (f2, some Errc.bad_file_descriptor)
  else if cstr f2.header.toBytes 8 ≠ WAVE then (f2, some Errc.bad_file_descriptor)
  else if cstr f2.header.toBytes 12 ≠ FMT then (f2, some Errc.bad_file_descriptor)
  else if cstr f2.header.toBytes 36 ≠ DATA then (f2, some Errc.bad_file_descriptor)
  else
    let bps := f2.header.fmt.bits_per_sample.val
    if bps ≠ 8 ∧ bps ≠ 16 ∧ bps ≠ 32 then (f2, some Errc.not_supported)
    else (f2, none)

def channel_number (f : File) : U16 := f.header.fmt.num_channel

def set_channel_number (f : File) (channel_number : U16) : File :=
  { f with header := { f.header with fmt := { f.header.fmt with num_channel := channel_number } } }

def sample_rate (f : File) : U32 := f.header.fmt.sample_rate

def set_sample_rate (f : File) (sample_rate : U32) : File :=
  { f with header := { f.header with fmt := { f.header.fmt with sample_rate := sample_rate } } }

def bits_per_sample (f : File) : U16 := f.header.fmt.bits_per_sample

def set_bits_per_sample (f : File) (bits_per_sample : U16) : File :=
  { f with header := { f.header with fmt := { f.header.fmt with bits_per_sample := bits_per_sample } } }

/-! ## `File::Read` -/

/-- The sample loop of `File::Read` for `n` remaining indices: `none` is the
early `return std::vector<float>()` of the last branch. -/
def readLoop (bits_per_sample : Nat) : Nat → IStream → Option (List Sample)
  | 0, _ => some []
  | n + 1, st =>
    if bits_per_sample = 8 then
      (readLoop bits_per_sample n (st.read 1).2).map (fun r => sampleOf 8 (st.read 1).1 :: r)
    else if bits_per_sample = 16 then
      (readLoop bits_per_sample n (st.read 2).2).map (fun r => sampleOf 16 (st.read 2).1 :: r)
    else if bits_per_sample = 32 then
      (readLoop bits_per_sample n (st.read 4).2).map (fun r => sampleOf 32 (st.read 4).1 :: r)
    else none

/-- The function `File::Read()`: the instance afterwards (the header is read
again into the instance) and the vector returned. The unsigned division
`data_size / bytes_per_sample` comes first and has no value for a zero divisor. -/
def Read (s : Storage) (f : File) : Except Fault (File × List Sample) :=
  let bits_per_sample := f.header.fmt.bits_per_sample.val
  let bytes_per_sample := bits_per_sample / 8
  let data_size := f.header.data.sub_chunk_2_size.val
  if bytes_per_sample = 0 then Except.error Fault.division_by_zero
  else
    let sample_number := data_size / bytes_per_sample
    match s.content f.path with
    | none => Except.ok (f, [])
    | some bytes =>
      let hd := (IStream.mk bytes true).read sizeofWAVEHeader
      let f1 : File :=
        { f with header := WAVEHeader.ofBytes (hd.1 ++ f.header.toBytes.drop hd.1.length) }
      match readLoop bits_per_sample sample_number hd.2 with
      | some result => Except.ok (f1, result)
      | none => Except.ok (f1, [])

/-- The function `File::Read(std::error_code&)`: outcome of `Read` together with
the value assigned to `err`. -/
def ReadErr (s : Storage) (f : File) : Except Fault (File × List Sample × Option Errc) :=
  match s.content f.path with
  | none => Except.ok (f, [], some Errc.io_error)
  | some _ => (Read s f).map (fun r => (r.1, r.2, none))

/-! ## `File::Write` -/

/-- The sample loop of `File::Write`: the bytes handed to the stream. The last
branch returns from `Write`; the stream is closed by its destructor. -/
def writeLoop (oor : ℚ → Int) (bits_per_sample : Nat) : List ℚ → List Byte
  | [] => []
  | sample :: rest =>
    if bits_per_sample = 8 then
      leBytes 1 (ofSigned 8 (encodeSample oor 8 sample)) ++ writeLoop oor bits_per_sample rest
    else if bits_per_sample = 16 then
      leBytes 2 (ofSigned 16 (encodeSample oor 16 sample)) ++ writeLoop oor bits_per_sample rest
    else if bits_per_sample = 32 then
      leBytes 4 (ofSigned 32 (encodeSample oor 32 sample)) ++ writeLoop oor bits_per_sample rest
    else []

/-- The header `File::Write` leaves in the instance. The `size_t` expressions are
stored into `uint32_t` fields; reducing modulo `2^64` first changes nothing of the
stored value, so they are computed in `Nat` and reduced once. -/
def writeHeader (h : WAVEHeader) (size : Nat) : WAVEHeader :=
  let bits_per_sample := h.fmt.bits_per_sample.val
  let bytes_per_sample := bits_per_sample / 8
  let channel_number := h.fmt.num_channel.val
  let sample_rate := h.fmt.sample_rate.val
  let byte_per_block := u16 (bytes_per_sample * channel_number)
  { riff := { h.riff with chunk_size := u32 (sizeofWAVEHeader + size * (bits_per_sample / 8) - 8) }
    fmt := { h.fmt with
      byte_per_block := byte_per_block
      byte_rate := u32 (sample_rate * byte_per_block.val) }
    data := { h.data with sub_chunk_2_size := u32 (size * bytes_per_sample) } }

/-- The function `File::Write(const std::vector<float>&)`: storage and instance
afterwards. -/
def Write (oor : ℚ → Int) (s : Storage) (f : File) (data : List ℚ) : Storage × File :=
  let f1 : File := { f with header := writeHeader f.header data.length }
  if s.writable f.path then
    (s.put f.path
      (f1.header.toBytes ++ writeLoop oor f.header.fmt.bits_per_sample.val data), f1)
  else (s, f1)

/-- The function `File::Write(const std::vector<float>&, std::error_code&)`:
storage and instance afterwards and the value assigned to `err`. -/
def WriteErr (oor : ℚ → Int) (s : Storage) (f : File) (data : List ℚ) :
    Storage × File × Option Errc :=
  let bits_per_sample := f.header.fmt.bits_per_sample.val
  if bits_per_sample ≠ 8 ∧ bits_per_sample ≠ 16 ∧ bits_per_sample ≠ 32 then
    (s, f, some Errc.not_supported)
  else ((Write oor s f data).1, (Write oor s f data).2, none)

/-! ## The constructor -/

/-- The constructor `File::File()`: no path is bound and the header is the value
of `MakeWAVEHeader()`. That function is declared in `wave/headers.h`, which is
not among the sources at hand; its value is a parameter here. -/
def File.new (MakeWAVEHeader : WAVEHeader) : File := ⟨"", MakeWAVEHeader⟩

/-! ## Concrete instances used in the examples -/

/-- The text `RIFF` as an id field. -/
def tagRIFF : Tag := ⟨82, 73, 70, 70⟩
/-- The text `WAVE` as an id field. -/
def tagWAVE : Tag := ⟨87, 65, 86, 69⟩
/-- The text `fmt ` as an id field. -/
def tagFMT : Tag := ⟨102, 109, 116, 32⟩
/-- The text `data` as an id field. -/
def tagDATA : Tag := ⟨100, 97, 116, 97⟩

/-- A canonical PCM header: mono, 44100 Hz, `bits` bits per sample, `size`
payload bytes, every derived field consistent. -/
def pcmHeader (bits : U16) (size : U32) : WAVEHeader where
  riff := { chunk_id := tagRIFF, chunk_size := u32 (36 + size.val), format := tagWAVE }
  fmt :=
    { sub_chunk_1_id := tagFMT
      sub_chunk_1_size := 16
      audio_format := 1
      num_channel := 1
      sample_rate := 44100
      byte_rate := u32 (44100 * (bits.val / 8))
      byte_per_block := u16 (bits.val / 8)
      bits_per_sample := bits }
  data := { sub_chunk_2_id := tagDATA, sub_chunk_2_size := size }

/-- A store holding the single file `name` with content `bs`; every path can be
opened for writing. -/
def oneFile (name : String) (bs : List Byte) : Storage where
  content := fun p => if p = name then some bs else none
  writable := fun _ => true

/-- A store without any file; every path can be opened for writing. -/
def noFile : Storage where
  content := fun _ => none
  writable := fun _ => true

/-- An out-of-range conversion that delivers zero. -/
def oorZero : ℚ → Int := fun _ => 0

/-- The header `h` with its RIFF chunk id replaced by `t`. -/
def withRiffId (h : WAVEHeader) (t : Tag) : WAVEHeader :=
  { h with riff := { h.riff with chunk_id := t } }

/-- The header `h` with its audio format tag replaced by `a`. -/
def withAudioFormat (h : WAVEHeader) (a : U16) : WAVEHeader :=
  { h with fmt := { h.fmt with audio_format := a } }

/-! ## Rounding lemmas -/

/-- A rational closer than one half to an integer rounds to it. -/
theorem roundHalfEven_of_near (t : ℚ) (n : Int) (h : |t - n| < 1 / 2) :
    roundHalfEven t = n := by
  rw [abs_lt] at h
  obtain ⟨h1, h2⟩ := h
  unfold roundHalfEven
  simp only
  rcases le_or_lt (n : ℚ) t with hn | hn
  · have hf : ⌊t⌋ = n := by
      rw [Int.floor_eq_iff]
      constructor <;> linarith
    rw [hf, if_pos (by linarith)]
  · have hf : ⌊t⌋ = n - 1 := by
      rw [Int.floor_eq_iff]
      push_cast
      constructor <;> linarith
    rw [hf]
    push_cast
    rw [if_neg (by linarith), if_pos (by linarith)]
    ring

/-- An integer rounds to itself. -/
theorem roundHalfEven_intCast (n : Int) : roundHalfEven (n : ℚ) = n :=
  roundHalfEven_of_near _ n (by simp)

/-- A tie above an even integer rounds down to it. -/
theorem roundHalfEven_tie_even (n : Int) (hn : n % 2 = 0) :
    roundHalfEven ((n : ℚ) + 1 / 2) = n := by
  have hf : ⌊(n : ℚ) + 1 / 2⌋ = n := by
    rw [Int.floor_eq_iff]
    constructor <;> linarith
  unfold roundHalfEven
  simp only
  rw [hf, if_neg (by linarith), if_neg (by linarith), if_pos hn]

/-- Rounding moves a rational by at most one half. -/
theorem roundHalfEven_error (t : ℚ) : |(roundHalfEven t : ℚ) - t| ≤ 1 / 2 := by
  have h1 := Int.floor_le t
  have h2 := Int.lt_floor_add_one t
  unfold roundHalfEven
  simp only
  rw [abs_le]
  split_ifs with a b c
  · constructor <;> linarith
  · push_cast; constructor <;> linarith
  · constructor <;> linarith
  · push_cast; constructor <;> linarith

/-- The binade exponent of a rational between `2^e` and `2^(e+1)`. -/
theorem f32exp_of_bounds (x : ℚ) (e : Int) (he : -126 ≤ e) (h1 : 2 ^ e ≤ |x|)
    (h2 : |x| < 2 ^ (e + 1)) : f32exp x = e := by
  have hpos : 0 < |x| := lt_of_lt_of_le (by positivity) h1
  have hlog : Int.log 2 |x| = e := by
    apply le_antisymm
    · have := (Int.lt_zpow_iff_log_lt (b := 2) (by norm_num) hpos (x := e + 1)).mp
        (by exact_mod_cast h2)
      omega
    · exact (Int.zpow_le_iff_le_log (b := 2) (by norm_num) hpos).mp (by exact_mod_cast h1)
  unfold f32exp
  rw [hlog]
  exact max_eq_left he

/-- Evaluation of `f32round`: in the binade of exponent `e` a rational closer than
half a unit in the last place to a multiple of that unit rounds to the multiple. -/
theorem f32round_of_near (x : ℚ) (e : Int) (n : Int) (he : -126 ≤ e) (h1 : 2 ^ e ≤ |x|)
    (h2 : |x| < 2 ^ (e + 1)) (h : |x - n * 2 ^ (e - 23)| < 2 ^ (e - 24)) :
    f32round x = n * 2 ^ (e - 23) := by
  have hu : f32ulp x = 2 ^ (e - 23) := by
    unfold f32ulp; rw [f32exp_of_bounds x e he h1 h2]
  have hpos : (0 : ℚ) < 2 ^ (e - 23) := by positivity
  have h24 : (2 : ℚ) ^ (e - 24) = 2 ^ (e - 23) / 2 := by
    rw [show e - 24 = e - 23 - 1 by ring, zpow_sub_one₀ (by norm_num)]
    ring
  unfold f32round
  rw [hu]
  congr 1
  have : roundHalfEven (x / 2 ^ (e - 23)) = n := by
    apply roundHalfEven_of_near
    have hx : x / 2 ^ (e - 23) - n = (x - n * 2 ^ (e - 23)) / 2 ^ (e - 23) := by
      field_simp
      ring
    rw [hx, abs_div, abs_of_pos hpos, div_lt_iff₀ hpos]
    rw [h24] at h
    linarith
  rw [this]

/-- A multiple of the unit in the last place of its own binade is a float. -/
theorem f32round_exact (e : Int) (n : Int) (he : -126 ≤ e)
    (h1 : 2 ^ e ≤ |(n : ℚ) * 2 ^ (e - 23)|) (h2 : |(n : ℚ) * 2 ^ (e - 23)| < 2 ^ (e + 1)) :
    f32round (n * 2 ^ (e - 23)) = n * 2 ^ (e - 23) :=
  f32round_of_near _ e n he h1 h2 (by simp; positivity)

theorem f32round_zero : f32round 0 = 0 := by
  unfold f32round roundHalfEven
  simp

/-- The float nearest to `2147483647` is `2147483648`. -/
theorem f32round_int32_max : f32round 2147483647 = 2147483648 := by
  have := f32round_of_near 2147483647 30 16777216 (by norm_num) (by norm_num [abs_of_pos])
    (by norm_num [abs_of_pos]) (by norm_num [abs_of_pos])
  rw [this]; norm_num

/-- Integers of magnitude below `2^24` are floats. -/
theorem f32round_intCast (v : Int) (hv : |v| < 2 ^ 24) : f32round (v : ℚ) = v := by
  rcases eq_or_ne v 0 with rfl | h0
  · simpa using f32round_zero
  have hq : (0 : ℚ) < |(v : ℚ)| := abs_pos.mpr (by exact_mod_cast h0)
  have hq1 : (1 : ℚ) ≤ |(v : ℚ)| := by
    have : (1 : Int) ≤ |v| := Int.one_le_abs h0
    exact_mod_cast this
  have hq2 : |(v : ℚ)| < 2 ^ (24 : Int) := by
    have : ((|v| : Int) : ℚ) < ((2 ^ 24 : Int) : ℚ) := by exact_mod_cast hv
    rw [Int.cast_abs] at this
    norm_num at this ⊢
    exact this
  set e := Int.log 2 |(v : ℚ)| with he
  have hlo : (2 : ℚ) ^ e ≤ |(v : ℚ)| := by
    simpa using Int.zpow_log_le_self (b := 2) (by norm_num) hq
  have hhi : |(v : ℚ)| < (2 : ℚ) ^ (e + 1) := by
    simpa using Int.lt_zpow_succ_log_self (b := 2) (by norm_num) |(v : ℚ)|
  have he0 : 0 ≤ e :=
    (Int.zpow_le_iff_le_log (b := 2) (by norm_num) hq).mp (by simpa using hq1)
  have he23 : e < 24 :=
    (Int.lt_zpow_iff_log_lt (b := 2) (by norm_num) hq).mp (by simpa using hq2)
  have hn : ((v * 2 ^ (23 - e).toNat : Int) : ℚ) * 2 ^ (e - 23) = v := by
    push_cast
    rw [← zpow_natCast, Int.toNat_of_nonneg (by omega), mul_assoc, ← zpow_add₀ (by norm_num)]
    simp
  have := f32round_of_near (v : ℚ) e (v * 2 ^ (23 - e).toNat) (by omega) hlo hhi
    (by rw [hn]; simp; positivity)
  rw [hn] at this
  exact this

/-- Rounding to nearest-even commutes with negation. -/
theorem roundHalfEven_neg (t : ℚ) : roundHalfEven (-t) = -roundHalfEven t := by
  rcases lt_trichotomy (t - ⌊t⌋) (1 / 2) with h | h | h
  · rcases eq_or_lt_of_le (Int.floor_le t) with h0 | h0
    · rw [← h0, ← Int.cast_neg, roundHalfEven_intCast, roundHalfEven_intCast]
    · have e1 : roundHalfEven t = ⌊t⌋ :=
        roundHalfEven_of_near _ _ (by rw [abs_lt]; constructor <;> linarith)
      have e2 : roundHalfEven (-t) = -⌊t⌋ :=
        roundHalfEven_of_near _ _ (by rw [abs_lt]; push_cast; constructor <;> linarith)
      rw [e1, e2]
  · have ht : t = (⌊t⌋ : ℚ) + 1 / 2 := by linarith
    have hnt : -t = ((-⌊t⌋ - 1 : Int) : ℚ) + 1 / 2 := by push_cast; linarith
    have hf : ⌊-t⌋ = -⌊t⌋ - 1 := by
      rw [Int.floor_eq_iff]; push_cast; constructor <;> linarith
    have hr : -t - ((-⌊t⌋ - 1 : Int) : ℚ) = 1 / 2 := by push_cast; linarith
    unfold roundHalfEven
    simp only
    rw [hf, hr, h]
    simp only [lt_self_iff_false, if_false]
    split_ifs <;> omega
  · have h2 := Int.lt_floor_add_one t
    have e1 : roundHalfEven t = ⌊t⌋ + 1 :=
      roundHalfEven_of_near _ _ (by rw [abs_lt]; push_cast; constructor <;> linarith)
    have e2 : roundHalfEven (-t) = -(⌊t⌋ + 1) :=
      roundHalfEven_of_near _ _ (by rw [abs_lt]; push_cast; constructor <;> linarith)
    rw [e1, e2]

/-- Float rounding commutes with negation. -/
theorem f32round_neg (x : ℚ) : f32round (-x) = -f32round x := by
  have hu : f32ulp (-x) = f32ulp x := by unfold f32ulp f32exp; rw [abs_neg]
  unfold f32round
  rw [hu, neg_div, roundHalfEven_neg]
  push_cast
  ring

/-- Float rounding moves a rational of the binade `e` by at most half a unit in
the last place. -/
theorem f32round_error (x : ℚ) (e : Int) (he : -126 ≤ e) (h1 : 2 ^ e ≤ |x|)
    (h2 : |x| < 2 ^ (e + 1)) : |f32round x - x| ≤ 2 ^ (e - 24) := by
  have hu : f32ulp x = 2 ^ (e - 23) := by
    unfold f32ulp; rw [f32exp_of_bounds x e he h1 h2]
  have hpos : (0 : ℚ) < 2 ^ (e - 23) := by positivity
  have h24 : (2 : ℚ) ^ (e - 24) = 2 ^ (e - 23) / 2 := by
    rw [show e - 24 = e - 23 - 1 by ring, zpow_sub_one₀ (by norm_num)]
    ring
  have hx : f32round x - x
      = ((roundHalfEven (x / 2 ^ (e - 23)) : ℚ) - x / 2 ^ (e - 23)) * 2 ^ (e - 23) := by
    unfold f32round
    rw [hu]
    field_simp
  rw [hx, abs_mul, abs_of_pos hpos, h24]
  have := roundHalfEven_error (x / 2 ^ (e - 23))
  nlinarith

/-- The evaluation lemma with the binade written as `2^k * 2^c`. -/
theorem f32round_of_near_scaled (x : ℚ) (k : ℕ) (c : Int) (n : Int) (hc : -126 ≤ (k : Int) + c)
    (h1 : 2 ^ k * 2 ^ c ≤ |x|) (h2 : |x| < 2 ^ k * 2 ^ (c + 1))
    (h : |x - n * (2 ^ k * 2 ^ (c - 23))| < 2 ^ k * 2 ^ (c - 24)) :
    f32round x = n * (2 ^ k * 2 ^ (c - 23)) := by
  have hz : ∀ d : Int, (2 : ℚ) ^ ((k : Int) + d) = 2 ^ k * 2 ^ d := fun d => by
    rw [zpow_add₀ (by norm_num), zpow_natCast]
  have := f32round_of_near x ((k : Int) + c) n hc (by rw [hz]; exact h1)
    (by rw [add_assoc, hz]; exact h2)
    (by rw [add_sub_assoc, add_sub_assoc, hz, hz]; exact h)
  rw [this, add_sub_assoc, hz]

/-- The error bound with the binade written as `2^k * 2^c`. -/
theorem f32round_error_scaled (x : ℚ) (k : ℕ) (c : Int) (hc : -126 ≤ (k : Int) + c)
    (h1 : 2 ^ k * 2 ^ c ≤ |x|) (h2 : |x| < 2 ^ k * 2 ^ (c + 1)) :
    |f32round x - x| ≤ 2 ^ k * 2 ^ (c - 24) := by
  have hz : ∀ d : Int, (2 : ℚ) ^ ((k : Int) + d) = 2 ^ k * 2 ^ d := fun d => by
    rw [zpow_add₀ (by norm_num), zpow_natCast]
  have := f32round_error x ((k : Int) + c) hc (by rw [hz]; exact h1)
    (by rw [add_assoc, hz]; exact h2)
  rw [add_sub_assoc, hz] at this
  exact this

/-- Decoding a positive 16-bit magnitude and scaling it back gives the integer
again: `a / 32767` rounded to a float, times `32767`, rounded to a float, is `a`. -/
theorem roundtrip16_pos (a : ℕ) (h1 : 1 ≤ a) (h2 : a ≤ 32768) :
    f32round (f32round ((a : ℚ) / 32767) * 32767) = a := by
  obtain ⟨k, hk1, hk2⟩ : ∃ k : ℕ, 2 ^ k ≤ a ∧ a < 2 ^ (k + 1) :=
    ⟨Nat.log 2 a, Nat.pow_log_le_self 2 (by omega), Nat.lt_pow_succ_log_self (by norm_num) a⟩
  have hk : k ≤ 15 := by
    by_contra hc
    have : 2 ^ 16 ≤ 2 ^ k := Nat.pow_le_pow_right (by norm_num) (by omega)
    omega
  have hPpos : (0 : ℚ) < 2 ^ k := by positivity
  have hapos : (0 : ℚ) < a := by exact_mod_cast h1
  by_cases hA : a = 32767
  · subst hA
    have e1 : f32round ((1 : Int) : ℚ) = (1 : Int) := f32round_intCast 1 (by norm_num)
    have e2 : f32round ((32767 : Int) : ℚ) = (32767 : Int) := f32round_intCast 32767 (by norm_num)
    norm_num at e1 e2 ⊢
    rw [e1]
    norm_num
    exact e2
  by_cases hB : a = 2 ^ k
  · have haq : (a : ℚ) = 2 ^ k := by exact_mod_cast hB
    rw [haq]
    have hx : f32round ((2 : ℚ) ^ k / 32767) = (8388864 : Int) * (2 ^ k * 2 ^ ((-15 : Int) - 23)) := by
      apply f32round_of_near_scaled _ k (-15) 8388864 (by omega)
      · rw [abs_of_pos (by positivity)]; norm_num; linarith
      · rw [abs_of_pos (by positivity)]; norm_num; linarith
      · rw [abs_lt]; norm_num; constructor <;> linarith
    rw [hx]
    have hz : f32round ((8388864 : Int) * ((2 : ℚ) ^ k * 2 ^ ((-15 : Int) - 23)) * 32767)
        = (16777216 : Int) * (2 ^ k * 2 ^ ((-1 : Int) - 23)) := by
      apply f32round_of_near_scaled _ k (-1) 16777216 (by omega)
      · rw [abs_of_pos (by positivity)]; norm_num; linarith
      · rw [abs_of_pos (by positivity)]; norm_num; linarith
      · rw [abs_lt]; norm_num; constructor <;> linarith
    rw [hz]
    norm_num
    ring
  · have hk14 : k ≤ 14 := by
      by_contra hc
      have : k = 15 := by omega
      subst this
      omega
    have hP14 : 2 ^ k ≤ 2 ^ 14 := Nat.pow_le_pow_right (by norm_num) hk14
    have hub : 16384 * a < 32767 * 2 ^ k := by
      rw [pow_succ] at hk2
      generalize 2 ^ k = P at *
      omega
    have hlb : 2 ^ k + 1 ≤ a := by
      generalize 2 ^ k = P at *
      omega
    have hub2 : a + 1 ≤ 2 * 2 ^ k := by
      rw [pow_succ] at hk2
      generalize 2 ^ k = P at *
      omega
    have qP14 : (2 : ℚ) ^ k ≤ 16384 := by exact_mod_cast hP14
    have qub : 16384 * (a : ℚ) < 32767 * 2 ^ k := by exact_mod_cast hub
    have qlb : (2 : ℚ) ^ k + 1 ≤ a := by exact_mod_cast hlb
    have qub2 : (a : ℚ) + 1 ≤ 2 * 2 ^ k := by exact_mod_cast hub2
    -- the decoded float is within half a unit in the last place of `a / 32767`
    have herr : |f32round ((a : ℚ) / 32767) - a / 32767| ≤ 2 ^ k * 2 ^ ((-15 : Int) - 24) := by
      apply f32round_error_scaled _ k (-15) (by omega)
      · rw [abs_of_pos (by positivity)]; norm_num
        rw [le_div_iff₀ (by norm_num)]; linarith
      · rw [abs_of_pos (by positivity)]; norm_num
        rw [div_lt_iff₀ (by norm_num)]; linarith
    norm_num at herr
    rw [abs_le] at herr
    obtain ⟨herr1, herr2⟩ := herr
    set x := f32round ((a : ℚ) / 32767) with hxdef
    have ha32 : (a : ℚ) / 32767 * 32767 = a := by field_simp
    have hn : ((a * 2 ^ (23 - k) : ℕ) : Int) * ((2 : ℚ) ^ k * 2 ^ ((0 : Int) - 23)) = a := by
      have hp : (2 : ℚ) ^ (23 - k) * 2 ^ k = 2 ^ 23 := by
        rw [← pow_add, Nat.sub_add_cancel (by omega)]
      push_cast
      calc (a : ℚ) * 2 ^ (23 - k) * (2 ^ k * 2 ^ ((0 : Int) - 23))
          = a * (2 ^ (23 - k) * 2 ^ k) * 2 ^ ((0 : Int) - 23) := by ring
        _ = a := by rw [hp]; norm_num; ring
    have hz := f32round_of_near_scaled (x * 32767) k 0 ((a * 2 ^ (23 - k) : ℕ) : Int) (by omega)
      (by rw [abs_of_pos (by nlinarith)]; norm_num; nlinarith)
      (by rw [abs_of_pos (by nlinarith)]; norm_num; nlinarith)
      (by rw [hn, abs_lt]; norm_num; constructor <;> nlinarith)
    rw [hz, hn]

/-- Evaluation of `f32round` at a tie: half way between two neighbouring floats
the one with the even significand is taken. -/
theorem f32round_tie_even (x : ℚ) (e : Int) (n : Int) (he : -126 ≤ e) (h1 : 2 ^ e ≤ |x|)
    (h2 : |x| < 2 ^ (e + 1)) (hx : x = ((n : ℚ) + 1 / 2) * 2 ^ (e - 23)) (hn : n % 2 = 0) :
    f32round x = n * 2 ^ (e - 23) := by
  have hu : f32ulp x = 2 ^ (e - 23) := by
    unfold f32ulp; rw [f32exp_of_bounds x e he h1 h2]
  have hpos : (0 : ℚ) < 2 ^ (e - 23) := by positivity
  have hq : x / 2 ^ (e - 23) = (n : ℚ) + 1 / 2 := by
    rw [hx]; field_simp; ring
  unfold f32round
  rw [hu, hq, roundHalfEven_tie_even n hn]

/-- The float nearest to `16777217` is `16777216`. -/
theorem f32round_16777217 : f32round 16777217 = 16777216 := by
  have := f32round_tie_even 16777217 24 8388608 (by norm_num) (by norm_num [abs_of_pos])
    (by norm_num [abs_of_pos]) (by norm_num) (by decide)
  rw [this]; norm_num

/-- Rounding to nearest-even does not pass an integer bound. -/
theorem roundHalfEven_le (t : ℚ) (K : Int) (h : t ≤ K) : roundHalfEven t ≤ K := by
  have h1 := Int.floor_le t
  have hf : ⌊t⌋ ≤ K := by
    have : ((⌊t⌋ : Int) : ℚ) ≤ (K : ℚ) := le_trans h1 h
    exact_mod_cast this
  unfold roundHalfEven
  simp only
  split_ifs with a b c
  · exact hf
  · have : ((⌊t⌋ : Int) : ℚ) < (K : ℚ) := by linarith
    have : ⌊t⌋ < K := by exact_mod_cast this
    omega
  · exact hf
  · have : ((⌊t⌋ : Int) : ℚ) < (K : ℚ) := by linarith
    have : ⌊t⌋ < K := by exact_mod_cast this
    omega

/-- Float rounding does not pass a positive float: a rational that is at most
the float `N * 2^(e-23)` of the binade `e` rounds to at most that float. -/
theorem f32round_le_float (y : ℚ) (e : Int) (N : Int) (he : -126 ≤ e)
    (hm1 : (2 : ℚ) ^ e ≤ N * 2 ^ (e - 23)) (hm2 : (N : ℚ) * 2 ^ (e - 23) < 2 ^ (e + 1))
    (hy : y ≤ N * 2 ^ (e - 23)) : f32round y ≤ N * 2 ^ (e - 23) := by
  have hupos : (0 : ℚ) < f32ulp y := by unfold f32ulp; positivity
  have hmpos : (0 : ℚ) < N * 2 ^ (e - 23) := lt_of_lt_of_le (by positivity) hm1
  rcases le_or_lt y 0 with h0 | h0
  · have : roundHalfEven (y / f32ulp y) ≤ 0 :=
      roundHalfEven_le _ 0 (by simpa using div_nonpos_of_nonpos_of_nonneg h0 hupos.le)
    have hc : ((roundHalfEven (y / f32ulp y) : Int) : ℚ) ≤ 0 := by exact_mod_cast this
    unfold f32round
    nlinarith
  · have habs : |y| = y := abs_of_pos h0
    have hlt : y < 2 ^ (e + 1) := lt_of_le_of_lt hy hm2
    have hapos : 0 < |y| := by rw [habs]; exact h0
    have halt : |y| < ((2 : ℕ) : ℚ) ^ (e + 1) := by rw [habs]; exact_mod_cast hlt
    have hlog : Int.log 2 |y| ≤ e := by
      have := (Int.lt_zpow_iff_log_lt (b := 2) (by norm_num) hapos (x := e + 1)).mp halt
      omega
    have hE : f32exp y ≤ e := by unfold f32exp; exact max_le hlog he
    have hylt : y < 2 ^ (f32exp y + 1) := by
      have h1 : |y| < (2 : ℚ) ^ (Int.log 2 |y| + 1) := by
        simpa using Int.lt_zpow_succ_log_self (b := 2) (by norm_num) |y|
      have h2 : (2 : ℚ) ^ (Int.log 2 |y| + 1) ≤ 2 ^ (f32exp y + 1) :=
        zpow_le_zpow_right₀ (by norm_num) (by unfold f32exp; simp)
      have h3 := lt_of_lt_of_le h1 h2
      rw [habs] at h3
      exact h3
    rcases eq_or_lt_of_le hE with hEe | hEe
    · have hu : f32ulp y = 2 ^ (e - 23) := by unfold f32ulp; rw [hEe]
      have : roundHalfEven (y / f32ulp y) ≤ N :=
        roundHalfEven_le _ N (by rw [hu, div_le_iff₀ (by positivity)]; exact hy)
      have hc : ((roundHalfEven (y / f32ulp y) : Int) : ℚ) ≤ N := by exact_mod_cast this
      unfold f32round
      rw [hu] at hc ⊢
      exact mul_le_mul_of_nonneg_right hc (by positivity)
    · have h24 : (2 : ℚ) ^ (f32exp y + 1) = 16777216 * f32ulp y := by
        unfold f32ulp
        rw [show f32exp y + 1 = 24 + (f32exp y - 23) by ring, zpow_add₀ (by norm_num)]
        norm_num
      have : roundHalfEven (y / f32ulp y) ≤ 16777216 :=
        roundHalfEven_le _ 16777216 (by
          rw [div_le_iff₀ hupos]; push_cast; linarith)
      have hc : ((roundHalfEven (y / f32ulp y) : Int) : ℚ) ≤ 16777216 := by exact_mod_cast this
      have hle : (2 : ℚ) ^ (f32exp y + 1) ≤ 2 ^ e :=
        zpow_le_zpow_right₀ (by norm_num) (by omega)
      unfold f32round
      calc (roundHalfEven (y / f32ulp y) : ℚ) * f32ulp y ≤ 16777216 * f32ulp y :=
            mul_le_mul_of_nonneg_right hc hupos.le
        _ = 2 ^ (f32exp y + 1) := h24.symm
        _ ≤ 2 ^ e := hle
        _ ≤ N * 2 ^ (e - 23) := hm1

/-- The mirror image of `f32round_le_float`. -/
theorem f32round_ge_neg_float (y : ℚ) (e : Int) (N : Int) (he : -126 ≤ e)
    (hm1 : (2 : ℚ) ^ e ≤ N * 2 ^ (e - 23)) (hm2 : (N : ℚ) * 2 ^ (e - 23) < 2 ^ (e + 1))
    (hy : -(N * 2 ^ (e - 23)) ≤ y) : -(N * 2 ^ (e - 23)) ≤ f32round y := by
  have := f32round_le_float (-y) e N he hm1 hm2 (by linarith)
  rw [f32round_neg] at this
  linarith

/-- Truncation toward zero keeps a value between two integers of opposite sign. -/
theorem truncToZero_bounds (x : ℚ) (a b : Int) (ha : a ≤ 0) (hb : 0 ≤ b) (h1 : (a : ℚ) ≤ x)
    (h2 : x ≤ b) : a ≤ truncToZero x ∧ truncToZero x ≤ b := by
  unfold truncToZero
  split_ifs with h
  · constructor
    · exact le_trans ha (Int.floor_nonneg.mpr h)
    · have : ((⌊x⌋ : Int) : ℚ) ≤ (b : ℚ) := le_trans (Int.floor_le x) h2
      exact_mod_cast this
  · push_neg at h
    constructor
    · have : ((a : Int) : ℚ) ≤ ((⌈x⌉ : Int) : ℚ) := le_trans h1 (Int.le_ceil x)
      exact_mod_cast this
    · exact le_trans (Int.ceil_le.mpr (by simpa using h.le)) hb

/-! ## Sample conversion lemmas -/

theorem truncToZero_intCast (v : Int) : truncToZero (v : ℚ) = v := by
  unfold truncToZero
  split_ifs <;> simp

theorem int_max_8 : int_max 8 = 127 := by decide
theorem int_max_16 : int_max 16 = 32767 := by decide
theorem int_max_32 : int_max 32 = 2147483647 := by decide

/-- The limit `127` is converted to `float` without change. -/
theorem f32ofInt_max_8 : f32ofInt (int_max 8) = 127 := by
  rw [int_max_8]
  exact_mod_cast f32round_intCast 127 (by norm_num)

/-- The limit `32767` is converted to `float` without change. -/
theorem f32ofInt_max_16 : f32ofInt (int_max 16) = 32767 := by
  rw [int_max_16]
  exact_mod_cast f32round_intCast 32767 (by norm_num)

/-- The limit `2147483647` becomes `2147483648` when converted to `float`. -/
theorem f32ofInt_max_32 : f32ofInt (int_max 32) = 2147483648 := by
  rw [int_max_32]
  exact_mod_cast f32round_int32_max

/-- At 8 bits the decoded float is the quotient by 127 rounded to a float. -/
theorem decodeSample_8 (v : Int) (hv : |v| < 2 ^ 24) :
    decodeSample 8 v = f32round ((v : ℚ) / 127) := by
  unfold decodeSample f32div
  rw [f32ofInt_max_8]
  unfold f32ofInt
  rw [f32round_intCast v hv]

/-- At 16 bits the decoded float is the quotient by 32767 rounded to a float. -/
theorem decodeSample_16 (v : Int) (hv : |v| < 2 ^ 24) :
    decodeSample 16 v = f32round ((v : ℚ) / 32767) := by
  unfold decodeSample f32div
  rw [f32ofInt_max_16]
  unfold f32ofInt
  rw [f32round_intCast v hv]

/-- At 32 bits the integer is first rounded to a float, and the divisor is
`2147483648`. -/
theorem decodeSample_32 (v : Int) :
    decodeSample 32 v = f32round (f32round (v : ℚ) / 2147483648) := by
  unfold decodeSample f32div
  rw [f32ofInt_max_32]
  rfl

/-- A float product that is an integer of the destination range converts to it. -/
theorem castInt_intCast (oor : ℚ → Int) (w : Nat) (v : Int)
    (h : -(2 ^ (w - 1)) ≤ v ∧ v < 2 ^ (w - 1)) : castInt oor w (v : ℚ) = v := by
  unfold castInt
  rw [truncToZero_intCast, if_pos h]

/-- Section 16-bit round trip on values: the float product of a decoded sample
is the integer it was decoded from. -/
theorem roundtrip16_product (v : Int) (h1 : -32768 ≤ v) (h2 : v ≤ 32767) :
    f32round (f32round ((v : ℚ) / 32767) * 32767) = v := by
  rcases lt_trichotomy v 0 with hv | hv | hv
  · have ha := roundtrip16_pos (-v).toNat (by omega) (by omega)
    have hc : (((-v).toNat : ℕ) : ℚ) = -(v : ℚ) := by
      have : (((-v).toNat : ℕ) : Int) = -v := Int.toNat_of_nonneg (by omega)
      exact_mod_cast this
    rw [hc, neg_div, f32round_neg, neg_mul, f32round_neg] at ha
    linarith
  · subst hv
    simp [f32round_zero]
  · have ha := roundtrip16_pos v.toNat (by omega) (by omega)
    have hc : ((v.toNat : ℕ) : ℚ) = (v : ℚ) := by
      have : ((v.toNat : ℕ) : Int) = v := Int.toNat_of_nonneg (by omega)
      exact_mod_cast this
    rw [hc] at ha
    exact ha

/-- Encoding what was decoded from a 16-bit integer gives the integer. -/
theorem encode_decode_16 (oor : ℚ → Int) (v : Int) (h1 : -32768 ≤ v) (h2 : v ≤ 32767) :
    encodeSample oor 16 (decodeSample 16 v) = v := by
  rw [decodeSample_16 v (by rw [abs_lt]; constructor <;> omega)]
  unfold encodeSample f32mul
  rw [f32ofInt_max_16, roundtrip16_product v h1 h2]
  exact castInt_intCast oor 16 v (by constructor <;> norm_num <;> omega)

/-! ## Byte and stream lemmas -/

theorem leBytes_length (k n : Nat) : (leBytes k n).length = k := by
  induction k generalizing n with
  | zero => rfl
  | succ k ih => simp [leBytes, ih]

theorem leNat_leBytes (k n : Nat) : leNat (leBytes k n) = n % 256 ^ k := by
  induction k generalizing n with
  | zero => simp [leBytes, leNat, Nat.mod_one]
  | succ k ih =>
    simp only [leBytes, leNat, ih, lowByte]
    rw [pow_succ, mul_comm (256 ^ k) 256, Nat.mod_mul]

theorem leNat_lt (bs : List Byte) : leNat bs < 256 ^ bs.length := by
  induction bs with
  | nil => simp [leNat]
  | cons b bs ih =>
    simp only [leNat, List.length_cons, pow_succ]
    have := b.isLt
    omega

/-- A signed 16-bit integer survives the store as two bytes and the load. -/
theorem toSigned_leBytes_16 (v : Int) (h1 : -32768 ≤ v) (h2 : v ≤ 32767) :
    toSigned 16 (leNat (leBytes 2 (ofSigned 16 v))) = v := by
  rw [leNat_leBytes]
  unfold toSigned ofSigned
  norm_num
  split_ifs <;> omega

/-- Two bytes read as a signed 16-bit integer lie in the range of `int16_t`. -/
theorem toSigned_16_range (bs : List Byte) (h : bs.length = 2) :
    -32768 ≤ toSigned 16 (leNat bs) ∧ toSigned 16 (leNat bs) ≤ 32767 := by
  have := leNat_lt bs
  rw [h] at this
  unfold toSigned
  norm_num at this ⊢
  split_ifs <;> omega

theorem slice_length (bs : List Byte) (off len : Nat) (h : off + len ≤ bs.length) :
    (slice bs off len).length = len := by
  simp [slice]
  omega

/-- A read on a good stream that holds enough bytes delivers them. -/
theorem IStream.read_good (rest : List Byte) (k : Nat) (h : k ≤ rest.length) :
    (IStream.mk rest true).read k = (rest.take k, ⟨rest.drop k, true⟩) := by
  simp [IStream.read, h]

/-- On a good stream that holds the whole payload the sample loop converts the
payload chunk by chunk, in order. -/
theorem readLoop_full (bits : Nat) (hb : bits = 8 ∨ bits = 16 ∨ bits = 32) (n : Nat) :
    ∀ rest : List Byte, n * (bits / 8) ≤ rest.length →
      readLoop bits n ⟨rest, true⟩
        = some ((List.range n).map
            (fun i => sampleOf bits (slice rest (i * (bits / 8)) (bits / 8)))) := by
  induction n with
  | zero => intro rest _; rfl
  | succ n ih =>
    intro rest hlen
    rcases hb with hb | hb | hb <;> subst hb <;> norm_num at hlen ih ⊢
    all_goals
      rw [readLoop]
      norm_num
      rw [IStream.read_good rest _ (by omega)]
      simp only
      rw [ih _ (by simp; omega), List.range_succ_eq_map]
      simp [slice, List.drop_drop, Nat.succ_eq_add_one, Nat.add_mul, Nat.add_comm]

/-- A local `value` that the read filled converts to a float. -/
theorem sampleOf_full (w : Nat) (got : List Byte) (h : got.length = w / 8) :
    sampleOf w got = Sample.value (decodeSample w (toSigned w (leNat got))) := by
  unfold sampleOf
  rw [if_pos h]

/-- When the path opens, the depth is supported and the file holds the whole
payload the header declares, `File::Read` returns the conversions of the
payload chunks in file order. -/
theorem Read_full (s : Storage) (f : File) (bytes : List Byte)
    (hb : f.header.fmt.bits_per_sample.val = 8 ∨ f.header.fmt.bits_per_sample.val = 16
      ∨ f.header.fmt.bits_per_sample.val = 32)
    (hopen : s.content f.path = some bytes)
    (hfull : 44 + f.header.data.sub_chunk_2_size.val / (f.header.fmt.bits_per_sample.val / 8)
      * (f.header.fmt.bits_per_sample.val / 8) ≤ bytes.length) :
    ∃ f1, Read s f = Except.ok (f1,
      (List.range (f.header.data.sub_chunk_2_size.val / (f.header.fmt.bits_per_sample.val / 8))).map
        (fun i => Sample.value (decodeSample f.header.fmt.bits_per_sample.val
          (toSigned f.header.fmt.bits_per_sample.val
            (leNat (slice bytes (44 + i * (f.header.fmt.bits_per_sample.val / 8))
              (f.header.fmt.bits_per_sample.val / 8))))))) := by
  have hne : ¬ (f.header.fmt.bits_per_sample.val / 8 = 0) := by
    rcases hb with hb | hb | hb <;> rw [hb] <;> decide
  have hrd : (IStream.mk bytes true).read sizeofWAVEHeader
      = (bytes.take 44, ⟨bytes.drop 44, true⟩) :=
    IStream.read_good bytes 44 (by omega)
  have hloop := readLoop_full f.header.fmt.bits_per_sample.val hb
    (f.header.data.sub_chunk_2_size.val / (f.header.fmt.bits_per_sample.val / 8))
    (bytes.drop 44) (by simp; omega)
  have hmap : (List.range (f.header.data.sub_chunk_2_size.val
        / (f.header.fmt.bits_per_sample.val / 8))).map
        (fun i => sampleOf f.header.fmt.bits_per_sample.val
          (slice (List.drop 44 bytes) (i * (f.header.fmt.bits_per_sample.val / 8))
            (f.header.fmt.bits_per_sample.val / 8)))
      = (List.range (f.header.data.sub_chunk_2_size.val
        / (f.header.fmt.bits_per_sample.val / 8))).map
        (fun i => Sample.value (decodeSample f.header.fmt.bits_per_sample.val
          (toSigned f.header.fmt.bits_per_sample.val
            (leNat (slice bytes (44 + i * (f.header.fmt.bits_per_sample.val / 8))
              (f.header.fmt.bits_per_sample.val / 8)))))) := by
    apply List.map_congr_left
    intro i hi
    rw [List.mem_range] at hi
    have hsl : slice (List.drop 44 bytes) (i * (f.header.fmt.bits_per_sample.val / 8))
          (f.header.fmt.bits_per_sample.val / 8)
        = slice bytes (44 + i * (f.header.fmt.bits_per_sample.val / 8))
          (f.header.fmt.bits_per_sample.val / 8) := by
      simp [slice, List.drop_drop]
    rw [hsl]
    apply sampleOf_full
    apply slice_length
    have : (i + 1) * (f.header.fmt.bits_per_sample.val / 8)
        ≤ f.header.data.sub_chunk_2_size.val / (f.header.fmt.bits_per_sample.val / 8)
          * (f.header.fmt.bits_per_sample.val / 8) :=
      Nat.mul_le_mul_right _ hi
    rw [Nat.add_mul] at this
    omega
  unfold Read
  simp only [hne, if_false, hopen, hrd, hloop, hmap]
  exact ⟨_, rfl⟩

theorem writeLoop_nil (oor : ℚ → Int) (bits : Nat) : writeLoop oor bits [] = [] := rfl

/-- One turn of the 16-bit branch of the sample loop of `File::Write`. -/
theorem writeLoop_16_cons (oor : ℚ → Int) (x : ℚ) (xs : List ℚ) :
    writeLoop oor 16 (x :: xs)
      = leBytes 2 (ofSigned 16 (encodeSample oor 16 x)) ++ writeLoop oor 16 xs := by
  simp [writeLoop]

/-! ## Header lemmas -/

theorem Write_header (oor : ℚ → Int) (s : Storage) (f : File) (data : List ℚ) :
    (Write oor s f data).2.header = writeHeader f.header data.length := by
  unfold Write
  split <;> rfl

theorem Write_path (oor : ℚ → Int) (s : Storage) (f : File) (data : List ℚ) :
    (Write oor s f data).2.path = f.path := by
  unfold Write
  split <;> rfl

/-! ## C1: header sizes after `File::Write` -/

/-- C1 (as stated, refuted): with 32 bits per sample and a vector of `2^30`
samples the data size `File::Write` stores is 0, not `2^30 * 4`. -/
theorem C1_sizes_overflow_counterexample :
    ¬ ((Write oorZero noFile ⟨"out.wav", pcmHeader 32 0⟩
          (List.replicate 1073741824 0)).2.header.data.sub_chunk_2_size.val
        = (List.replicate 1073741824 (0 : ℚ)).length * (32 / 8)) := by
  intro h
  rw [Write_header, List.length_replicate] at h
  have h0 : (writeHeader (pcmHeader 32 0) 1073741824).data.sub_chunk_2_size.val = 0 := by
    show (1073741824 * (32 / 8)) % 4294967296 = 0
    norm_num
  rw [h0] at h
  norm_num at h

/-- C1 (amended): for every bits-per-sample value, 8, 16 and 32 among them, and a vector of `L` samples,
after `File::Write` the data sub-chunk size is `L * (bits/8)` reduced modulo
`2^32` and the RIFF chunk size is `44 + L * (bits/8) - 8` reduced modulo `2^32`;
both are the unreduced values whenever `44 + L * (bits/8) - 8 < 2^32`. -/
theorem C1_write_header_sizes (oor : ℚ → Int) (s : Storage) (f : File) (data : List ℚ) :
    let bits := f.header.fmt.bits_per_sample.val
    let h := (Write oor s f data).2.header
    h.data.sub_chunk_2_size.val = (data.length * (bits / 8)) % 2 ^ 32
      ∧ h.riff.chunk_size.val = (44 + data.length * (bits / 8) - 8) % 2 ^ 32
      ∧ (44 + data.length * (bits / 8) - 8 < 2 ^ 32 →
          h.data.sub_chunk_2_size.val = data.length * (bits / 8)
            ∧ h.riff.chunk_size.val = 44 + data.length * (bits / 8) - 8) := by
  intro bits h
  have hh : h = writeHeader f.header data.length := Write_header oor s f data
  have h1 : h.data.sub_chunk_2_size.val = (data.length * (bits / 8)) % 2 ^ 32 := by
    rw [hh]; rfl
  have h2 : h.riff.chunk_size.val = (44 + data.length * (bits / 8) - 8) % 2 ^ 32 := by
    rw [hh]; rfl
  refine ⟨h1, h2, fun hlt => ?_⟩
  rw [h1, h2]
  constructor
  · apply Nat.mod_eq_of_lt; omega
  · exact Nat.mod_eq_of_lt hlt

/-- C1 witness: a 16-bit instance and three samples. -/
theorem C1_write_header_sizes_witness :
    (Write oorZero noFile ⟨"out.wav", pcmHeader 16 0⟩ [0, 1, -1]).2.header.data.sub_chunk_2_size.val
        = 3 * (16 / 8)
      ∧ (Write oorZero noFile ⟨"out.wav", pcmHeader 16 0⟩ [0, 1, -1]).2.header.riff.chunk_size.val
        = 44 + 3 * (16 / 8) - 8 :=
  (C1_write_header_sizes oorZero noFile ⟨"out.wav", pcmHeader 16 0⟩ [0, 1, -1]).2.2 (by decide)

/-! ## C2: validated open -/

/-- A string read from a `char*` that comes out 4 characters long stopped at
the fifth byte: that byte is zero. -/
theorem cstr_len4_stop {a b c d e : Byte} {rest out : List Byte}
    (h : (a :: b :: c :: d :: e :: rest).takeWhile (fun x => x ≠ 0) = out)
    (hl : out.length = 4) : e = 0 := by
  by_contra he
  by_cases ha : a = 0
  · subst h; simp [List.takeWhile, ha] at hl
  by_cases hb : b = 0
  · subst h; simp [List.takeWhile, ha, hb] at hl
  by_cases hc : c = 0
  · subst h; simp [List.takeWhile, ha, hb, hc] at hl
  by_cases hd : d = 0
  · subst h; simp [List.takeWhile, ha, hb, hc, hd] at hl
  subst h
  simp [List.takeWhile, ha, hb, hc, hd, he] at hl

/-- A string read from a `char*` that is not empty starts at a non-zero byte. -/
theorem cstr_head_ne_zero {e : Byte} {rest out : List Byte}
    (h : (e :: rest).takeWhile (fun x => x ≠ 0) = out) (hl : out ≠ []) : e ≠ 0 := by
  intro he
  subst h
  simp [List.takeWhile, he] at hl

/-- The strings read at the format field and at the fmt id field of one header
object are never `"WAVE"` and `"fmt "` at once: the first needs a zero byte at
offset 12 where the second starts. -/
theorem cstr_WAVE_FMT_exclusive (h : WAVEHeader) :
    ¬ (cstr h.toBytes 8 = WAVE ∧ cstr h.toBytes 12 = FMT) := by
  rintro ⟨h1, h2⟩
  have k1 : (h.riff.format.c0 :: h.riff.format.c1 :: h.riff.format.c2 :: h.riff.format.c3
      :: h.fmt.sub_chunk_1_id.c0 :: h.toBytes.drop 13).takeWhile (fun x => x ≠ 0) = WAVE := h1
  have k2 : (h.fmt.sub_chunk_1_id.c0 :: h.toBytes.drop 13).takeWhile (fun x => x ≠ 0)
      = FMT := h2
  have e1 : h.fmt.sub_chunk_1_id.c0 = 0 := cstr_len4_stop k1 rfl
  have e2 : h.fmt.sub_chunk_1_id.c0 ≠ 0 := cstr_head_ne_zero k2 (by decide)
  exact e2 e1

/-- Validated open assigns an error on every path of every store. -/
theorem OpenErr_reports_error (s : Storage) (f : File) (path : String) :
    (OpenErr s f path).2 ≠ none := by
  unfold OpenErr
  simp only
  split_ifs with h1 h2 h3 h4 h5 h6
  · simp
  · simp
  · simp
  · simp
  · simp
  · simp
  · exact absurd ⟨not_not.mp h3, not_not.mp h4⟩ (cstr_WAVE_FMT_exclusive _)

/-- C2 (the code at the failing input): a 44-byte file with the four ids
`RIFF`, `WAVE`, `fmt `, `data` in place and 16 bits per sample is refused by
`File::Open(path, err)` with `bad_file_descriptor`. -/
theorem C2_valid_file_refused :
    44 ≤ (pcmHeader 16 0).toBytes.length
      ∧ slice (pcmHeader 16 0).toBytes 0 4 = RIFF
      ∧ slice (pcmHeader 16 0).toBytes 8 4 = WAVE
      ∧ slice (pcmHeader 16 0).toBytes 12 4 = FMT
      ∧ slice (pcmHeader 16 0).toBytes 36 4 = DATA
      ∧ (WAVEHeader.ofBytes (pcmHeader 16 0).toBytes).fmt.bits_per_sample.val = 16
      ∧ (OpenErr (oneFile "a.wav" (pcmHeader 16 0).toBytes) ⟨"", pcmHeader 8 0⟩ "a.wav").2
          = some Errc.bad_file_descriptor := by
  refine ⟨by decide, by decide, by decide, by decide, by decide, by decide, ?_⟩
  decide

/-! ## C4: length of the decoded vector -/

/-- With a supported depth the sample loop runs to the end and fills one
element per index. -/
theorem readLoop_length (bits : Nat) (hb : bits = 8 ∨ bits = 16 ∨ bits = 32) (n : Nat) :
    ∀ st : IStream, ∃ r, readLoop bits n st = some r ∧ r.length = n := by
  induction n with
  | zero => intro st; exact ⟨[], rfl, rfl⟩
  | succ n ih =>
    intro st
    rcases hb with hb | hb | hb <;> subst hb
    · obtain ⟨r, hr, hl⟩ := ih (st.read 1).2
      exact ⟨sampleOf 8 (st.read 1).1 :: r, by simp [readLoop, hr], by simp [hl]⟩
    · obtain ⟨r, hr, hl⟩ := ih (st.read 2).2
      exact ⟨sampleOf 16 (st.read 2).1 :: r, by simp [readLoop, hr], by simp [hl]⟩
    · obtain ⟨r, hr, hl⟩ := ih (st.read 4).2
      exact ⟨sampleOf 32 (st.read 4).1 :: r, by simp [readLoop, hr], by simp [hl]⟩

/-- C4: when the in-memory bits-per-sample is 8, 16 or 32 and the bound path
opens, `File::Read` returns (no fault) a vector of exactly
`data size / (bits/8)` elements; for a 16-bit stereo header declaring `N` frames
(`N * 2 * 2` data bytes) that is `N * 2` elements, and the size divided by the
channel count is `N`. -/
theorem C4_read_length (s : Storage) (f : File) (bytes : List Byte)
    (hb : f.header.fmt.bits_per_sample.val = 8 ∨ f.header.fmt.bits_per_sample.val = 16
      ∨ f.header.fmt.bits_per_sample.val = 32)
    (hopen : s.content f.path = some bytes) :
    ∃ f1 result, Read s f = Except.ok (f1, result)
      ∧ result.length
          = f.header.data.sub_chunk_2_size.val / (f.header.fmt.bits_per_sample.val / 8)
      ∧ ∀ N : Nat, f.header.fmt.bits_per_sample.val = 16 → f.header.fmt.num_channel.val = 2 →
          f.header.data.sub_chunk_2_size.val = N * 2 * 2 →
          result.length = N * 2 ∧ result.length / f.header.fmt.num_channel.val = N := by
  have hne : ¬ (f.header.fmt.bits_per_sample.val / 8 = 0) := by
    rcases hb with hb | hb | hb <;> rw [hb] <;> decide
  obtain ⟨r, hr, hl⟩ := readLoop_length f.header.fmt.bits_per_sample.val hb
    (f.header.data.sub_chunk_2_size.val / (f.header.fmt.bits_per_sample.val / 8))
    ((IStream.mk bytes true).read sizeofWAVEHeader).2
  have hR : ∃ f1, Read s f = Except.ok (f1, r) := by
    unfold Read
    simp only [hne, if_false, hopen, hr]
    exact ⟨_, rfl⟩
  obtain ⟨f1, hR⟩ := hR
  refine ⟨f1, r, hR, hl, ?_⟩
  · intro N h16 hc hd
    rw [hl, h16, hd, hc]
    constructor
    · omega
    · omega

/-- C4 witness: a 16-bit stereo instance declaring 3 frames (12 data bytes),
bound to a file that holds the header only. -/
theorem C4_read_length_witness :
    ∃ f1 result,
      Read (oneFile "a.wav" (pcmHeader 16 12).toBytes)
          (set_channel_number ⟨"a.wav", pcmHeader 16 12⟩ 2) = Except.ok (f1, result)
      ∧ result.length = 3 * 2 ∧ result.length / 2 = 3 := by
  obtain ⟨f1, r, h1, _, h3⟩ := C4_read_length (oneFile "a.wav" (pcmHeader 16 12).toBytes)
    (set_channel_number ⟨"a.wav", pcmHeader 16 12⟩ 2)
    (pcmHeader 16 12).toBytes (Or.inr (Or.inl rfl)) (by decide)
  exact ⟨f1, r, h1, h3 3 rfl rfl rfl⟩

/-! ## C8: decode with an unsupported depth -/

/-- With an unsupported depth of at least 8 bits `File::Read` returns the empty
vector: either the vector has no element, or the first turn of the loop
returns. -/
theorem Read_unsupported_empty (s : Storage) (f : File)
    (h8 : 8 ≤ f.header.fmt.bits_per_sample.val)
    (hb : f.header.fmt.bits_per_sample.val ≠ 8 ∧ f.header.fmt.bits_per_sample.val ≠ 16
      ∧ f.header.fmt.bits_per_sample.val ≠ 32) :
    ∃ f1, Read s f = Except.ok (f1, []) := by
  have hne : ¬ (f.header.fmt.bits_per_sample.val / 8 = 0) := by omega
  unfold Read
  simp only [hne, if_false]
  cases hc : s.content f.path with
  | none => exact ⟨_, rfl⟩
  | some bytes =>
    simp only
    cases hn : f.header.data.sub_chunk_2_size.val / (f.header.fmt.bits_per_sample.val / 8) with
    | zero => exact ⟨_, rfl⟩
    | succ n =>
      have : readLoop f.header.fmt.bits_per_sample.val (n + 1)
          ((IStream.mk bytes true).read sizeofWAVEHeader).2 = none := by
        simp [readLoop, hb.1, hb.2.1, hb.2.2]
      simp only [this]
      exact ⟨_, rfl⟩

/-- C8 (the code at the failing input): with 4 bits per sample in the header
`File::Read` divides by `4 / 8 = 0`; it does not return the empty vector. -/
theorem C8_read_depth4_divides_by_zero (s : Storage) (path : String) (size : U32) :
    Read s ⟨path, pcmHeader 4 size⟩ = Except.error Fault.division_by_zero := by
  have h0 : (pcmHeader 4 size).fmt.bits_per_sample.val / 8 = 0 := by
    show (4 : U16).val / 8 = 0
    rfl
  unfold Read
  simp only [h0, if_true]

/-! ## C9: untyped encode with an unsupported depth -/

/-- C9 (the code at the failing input): with 24 bits per sample `File::Write`
opens the output stream, which truncates the file, and writes the 44 header
bytes before the loop returns: the file that held 3 bytes holds the header
afterwards. -/
theorem C9_write_depth24_replaces_file :
    (oneFile "out.wav" [1, 2, 3]).content "out.wav" = some [1, 2, 3]
      ∧ (Write oorZero (oneFile "out.wav" [1, 2, 3]) ⟨"out.wav", pcmHeader 24 0⟩ [0]).1.content
          "out.wav"
        = some (writeHeader (pcmHeader 24 0) 1).toBytes
      ∧ (writeHeader (pcmHeader 24 0) 1).toBytes.length = 44 := by
  refine ⟨by decide, ?_, by decide⟩
  simp [Write, oneFile, Storage.put, writeLoop, pcmHeader]
  rfl

/-! ## C10: validated encode -/

/-- C10: `File::Write(samples, err)` assigns `not_supported` exactly when the
in-memory bits-per-sample is none of 8, 16, 32, and then leaves header and
storage as they were; otherwise it assigns no error and header and storage end
as the untyped `File::Write(samples)` leaves them. -/
theorem C10_validated_write (oor : ℚ → Int) (s : Storage) (f : File) (data : List ℚ) :
    ((WriteErr oor s f data).2.2 = some Errc.not_supported
        ↔ (f.header.fmt.bits_per_sample.val ≠ 8 ∧ f.header.fmt.bits_per_sample.val ≠ 16
            ∧ f.header.fmt.bits_per_sample.val ≠ 32))
      ∧ ((WriteErr oor s f data).2.2 = some Errc.not_supported →
          (WriteErr oor s f data).1 = s ∧ (WriteErr oor s f data).2.1 = f)
      ∧ ((WriteErr oor s f data).2.2 ≠ some Errc.not_supported →
          (WriteErr oor s f data).2.2 = none
            ∧ (WriteErr oor s f data).1 = (Write oor s f data).1
            ∧ (WriteErr oor s f data).2.1 = (Write oor s f data).2) := by
  unfold WriteErr
  simp only
  split_ifs with h
  · simp [h]
  · simp [h]

/-- C10 witness: the refusal at 24 bits and the delegation at 16 bits. -/
theorem C10_validated_write_witness :
    ((WriteErr oorZero noFile ⟨"out.wav", pcmHeader 24 0⟩ [0]).1 = noFile
        ∧ (WriteErr oorZero noFile ⟨"out.wav", pcmHeader 24 0⟩ [0]).2.1
            = ⟨"out.wav", pcmHeader 24 0⟩)
      ∧ ((WriteErr oorZero noFile ⟨"out.wav", pcmHeader 16 0⟩ [0]).2.2 = none
        ∧ (WriteErr oorZero noFile ⟨"out.wav", pcmHeader 16 0⟩ [0]).1
            = (Write oorZero noFile ⟨"out.wav", pcmHeader 16 0⟩ [0]).1
        ∧ (WriteErr oorZero noFile ⟨"out.wav", pcmHeader 16 0⟩ [0]).2.1
            = (Write oorZero noFile ⟨"out.wav", pcmHeader 16 0⟩ [0]).2) :=
  ⟨(C10_validated_write oorZero noFile ⟨"out.wav", pcmHeader 24 0⟩ [0]).2.1
      ((C10_validated_write oorZero noFile ⟨"out.wav", pcmHeader 24 0⟩ [0]).1.mpr (by decide)),
   (C10_validated_write oorZero noFile ⟨"out.wav", pcmHeader 16 0⟩ [0]).2.2
      (fun h => absurd ((C10_validated_write oorZero noFile ⟨"out.wav", pcmHeader 16 0⟩ [0]).1.mp h)
        (by decide))⟩

/-! ## C5: the decoded values -/

/-- The 32-bit integer `16777217` decodes to the float `1/128`. -/
theorem decodeSample_32_16777217 : decodeSample 32 16777217 = 1 / 128 := by
  rw [decodeSample_32]
  have h1 : f32round ((16777217 : Int) : ℚ) = 16777216 := by exact_mod_cast f32round_16777217
  rw [h1]
  have := f32round_of_near (16777216 / 2147483648) (-7) 8388608 (by norm_num)
    (by norm_num [abs_of_pos]) (by norm_num [abs_of_pos]) (by norm_num [abs_of_pos])
  rw [this]; norm_num

/-- The float nearest to the quotient `16777217 / 2147483647`. -/
theorem f32round_quotient_16777217 :
    f32round (16777217 / 2147483647) = 8388609 / 1073741824 := by
  have := f32round_of_near (16777217 / 2147483647) (-7) 8388609 (by norm_num)
    (by norm_num [abs_of_pos]) (by norm_num [abs_of_pos]) (by norm_num [abs_lt])
  rw [this]; norm_num

/-- C5 (as stated, refuted): a 32-bit file whose one sample is the integer
`16777217` decodes to `1/128`, which is neither `16777217 / 2147483647` nor the
float nearest to that quotient. -/
theorem C5_decode32_counterexample :
    toSigned 32 (leNat (slice ((pcmHeader 32 4).toBytes ++ leBytes 4 16777217) 44 4)) = 16777217
      ∧ (∃ f1, Read (oneFile "a.wav" ((pcmHeader 32 4).toBytes ++ leBytes 4 16777217))
            ⟨"a.wav", pcmHeader 32 4⟩
          = Except.ok (f1, [Sample.value (1 / 128)]))
      ∧ Sample.value (1 / 128) ≠ Sample.value (16777217 / 2147483647)
      ∧ Sample.value (1 / 128) ≠ Sample.value (f32round (16777217 / 2147483647)) := by
  have hs : toSigned 32 (leNat (slice ((pcmHeader 32 4).toBytes ++ leBytes 4 16777217) 44 4))
      = 16777217 := by decide
  refine ⟨hs, ?_, ?_, ?_⟩
  · obtain ⟨f1, h⟩ := Read_full (oneFile "a.wav" ((pcmHeader 32 4).toBytes ++ leBytes 4 16777217))
      ⟨"a.wav", pcmHeader 32 4⟩ ((pcmHeader 32 4).toBytes ++ leBytes 4 16777217)
      (Or.inr (Or.inr rfl)) (by decide) (by decide)
    refine ⟨f1, ?_⟩
    rw [h]
    show Except.ok (f1, List.map (fun i => Sample.value (decodeSample 32 (toSigned 32
      (leNat (slice ((pcmHeader 32 4).toBytes ++ leBytes 4 16777217) (44 + i * 4) 4)))))
      (List.range 1)) = _
    rw [show List.range 1 = [0] from rfl]
    simp only [List.map]
    rw [show 44 + 0 * 4 = 44 from rfl, hs, decodeSample_32_16777217]
  · intro h
    injection h with h
    norm_num at h
  · rw [f32round_quotient_16777217]
    intro h
    injection h with h
    norm_num at h

/-- C5 (amended): when the path opens, the depth `w` is 8, 16 or 32 and the file
holds the whole payload, element `i` of the vector `File::Read` returns is the
float conversion of the signed little-endian `w`-bit integer at byte offset
`44 + i * (w/8)`: at 8 and 16 bits the float nearest to the integer divided by
127 and 32767; at 32 bits the float nearest to the integer, divided by
2147483648, the float nearest to 2147483647. -/
theorem C5_decoded_values (s : Storage) (f : File) (bytes : List Byte)
    (hb : f.header.fmt.bits_per_sample.val = 8 ∨ f.header.fmt.bits_per_sample.val = 16
      ∨ f.header.fmt.bits_per_sample.val = 32)
    (hopen : s.content f.path = some bytes)
    (hfull : 44 + f.header.data.sub_chunk_2_size.val / (f.header.fmt.bits_per_sample.val / 8)
      * (f.header.fmt.bits_per_sample.val / 8) ≤ bytes.length) :
    (∃ f1 result, Read s f = Except.ok (f1, result)
      ∧ ∀ i, i < f.header.data.sub_chunk_2_size.val / (f.header.fmt.bits_per_sample.val / 8) →
          result[i]? = some (Sample.value (decodeSample f.header.fmt.bits_per_sample.val
            (toSigned f.header.fmt.bits_per_sample.val
              (leNat (slice bytes (44 + i * (f.header.fmt.bits_per_sample.val / 8))
                (f.header.fmt.bits_per_sample.val / 8)))))))
      ∧ (∀ v : Int, |v| < 2 ^ 24 →
          decodeSample 8 v = f32round ((v : ℚ) / 127)
            ∧ decodeSample 16 v = f32round ((v : ℚ) / 32767))
      ∧ (∀ v : Int, decodeSample 32 v = f32round (f32round (v : ℚ) / 2147483648)) := by
  refine ⟨?_, fun v hv => ⟨decodeSample_8 v hv, decodeSample_16 v hv⟩, decodeSample_32⟩
  obtain ⟨f1, h⟩ := Read_full s f bytes hb hopen hfull
  refine ⟨f1, _, h, ?_⟩
  intro i hi
  rw [List.getElem?_map, List.getElem?_range hi]
  rfl

/-- C5 witness: a 16-bit file with the two samples `1` and `-2`. -/
theorem C5_decoded_values_witness :
    ∃ f1 result,
      Read (oneFile "a.wav" ((pcmHeader 16 4).toBytes ++ [1, 0, 254, 255]))
          ⟨"a.wav", pcmHeader 16 4⟩ = Except.ok (f1, result)
        ∧ ∀ i, i < (pcmHeader 16 4).data.sub_chunk_2_size.val
              / ((pcmHeader 16 4).fmt.bits_per_sample.val / 8) →
          result[i]? = some (Sample.value (decodeSample (pcmHeader 16 4).fmt.bits_per_sample.val
            (toSigned (pcmHeader 16 4).fmt.bits_per_sample.val
              (leNat (slice ((pcmHeader 16 4).toBytes ++ [1, 0, 254, 255])
                (44 + i * ((pcmHeader 16 4).fmt.bits_per_sample.val / 8))
                ((pcmHeader 16 4).fmt.bits_per_sample.val / 8)))))) :=
  (C5_decoded_values (oneFile "a.wav" ((pcmHeader 16 4).toBytes ++ [1, 0, 254, 255]))
    ⟨"a.wav", pcmHeader 16 4⟩ ((pcmHeader 16 4).toBytes ++ [1, 0, 254, 255])
    (Or.inr (Or.inl rfl)) (by decide) (by decide)).1

/-! ## C6 and C7: the encoded integers -/

/-- The float product is within `[-127, 127]` for a sample in `[-1, 1]`. -/
theorem product_range_8 (x : ℚ) (hx : |x| ≤ 1) :
    ((-127 : Int) : ℚ) ≤ f32round (x * 127) ∧ f32round (x * 127) ≤ ((127 : Int) : ℚ) := by
  rw [abs_le] at hx
  have hu := f32round_le_float (x * 127) 6 16646144 (by norm_num) (by norm_num) (by norm_num)
    (by norm_num; linarith)
  have hl := f32round_ge_neg_float (x * 127) 6 16646144 (by norm_num) (by norm_num)
    (by norm_num) (by norm_num; linarith)
  norm_num at hu hl ⊢
  exact ⟨hl, hu⟩

/-- The float product is within `[-32767, 32767]` for a sample in `[-1, 1]`. -/
theorem product_range_16 (x : ℚ) (hx : |x| ≤ 1) :
    ((-32767 : Int) : ℚ) ≤ f32round (x * 32767) ∧ f32round (x * 32767) ≤ ((32767 : Int) : ℚ) := by
  rw [abs_le] at hx
  have hu := f32round_le_float (x * 32767) 14 16776704 (by norm_num) (by norm_num)
    (by norm_num) (by norm_num; linarith)
  have hl := f32round_ge_neg_float (x * 32767) 14 16776704 (by norm_num) (by norm_num)
    (by norm_num) (by norm_num; linarith)
  norm_num at hu hl ⊢
  exact ⟨hl, hu⟩

/-- The float product is within `[-2147483648, 2147483520]` for a sample between
`-1` and the largest float below `1`. -/
theorem product_range_32 (x : ℚ) (h1 : -1 ≤ x) (h2 : x ≤ 1 - 1 / 16777216) :
    ((-2147483648 : Int) : ℚ) ≤ f32round (x * 2147483648)
      ∧ f32round (x * 2147483648) ≤ ((2147483520 : Int) : ℚ) := by
  have hu := f32round_le_float (x * 2147483648) 30 16777215 (by norm_num) (by norm_num)
    (by norm_num) (by norm_num; linarith)
  have hl := f32round_ge_neg_float (x * 2147483648) 31 8388608 (by norm_num) (by norm_num)
    (by norm_num) (by norm_num; linarith)
  norm_num at hu hl ⊢
  exact ⟨hl, hu⟩

/-- At 32 bits the sample `1.0` has the float product `2147483648`, which
`int32_t` cannot hold: the stored value is that of an out-of-range conversion. -/
theorem encodeSample_32_one (oor : ℚ → Int) : encodeSample oor 32 1 = oor 2147483648 := by
  have hm : f32round (1 * 2147483648) = ((2147483648 : Int) : ℚ) := by
    have := f32round_of_near (1 * 2147483648) 31 8388608 (by norm_num)
      (by norm_num [abs_of_pos]) (by norm_num [abs_of_pos]) (by norm_num [abs_of_pos])
    rw [this]; norm_num
  unfold encodeSample f32mul castInt
  rw [f32ofInt_max_32, hm, truncToZero_intCast, if_neg (by norm_num)]
  norm_num

/-- The 16-bit encodings of the two full-scale samples. -/
theorem encodeSample_16_full_scale (oor : ℚ → Int) :
    encodeSample oor 16 1 = 32767 ∧ encodeSample oor 16 (-1) = -32767 := by
  have hm : f32round ((32767 : Int) : ℚ) = ((32767 : Int) : ℚ) :=
    f32round_intCast 32767 (by norm_num)
  have hn : f32round ((-32767 : Int) : ℚ) = ((-32767 : Int) : ℚ) :=
    f32round_intCast (-32767) (by norm_num)
  constructor
  · unfold encodeSample f32mul
    rw [f32ofInt_max_16, show (1 : ℚ) * 32767 = ((32767 : Int) : ℚ) by norm_num, hm]
    exact castInt_intCast oor 16 32767 (by norm_num)
  · unfold encodeSample f32mul
    rw [f32ofInt_max_16, show (-1 : ℚ) * 32767 = ((-32767 : Int) : ℚ) by norm_num, hn]
    exact castInt_intCast oor 16 (-32767) (by norm_num)

/-- C6: at 16 bits `File::Write` stores the sample `1.0` as the integer `32767`
and the sample `-1.0` as `-32767`, which is not `-32768`; the four payload bytes
for the two samples are `FF 7F 01 80`. -/
theorem C6_full_scale_16 (oor : ℚ → Int) :
    encodeSample oor 16 1 = 32767 ∧ encodeSample oor 16 (-1) = -32767
      ∧ encodeSample oor 16 (-1) ≠ -32768
      ∧ writeLoop oor 16 [1, -1] = [255, 127, 1, 128]
      ∧ toSigned 16 (leNat [255, 127]) = 32767 ∧ toSigned 16 (leNat [1, 128]) = -32767 := by
  obtain ⟨h1, h2⟩ := encodeSample_16_full_scale oor
  refine ⟨h1, h2, by rw [h2]; decide, ?_, by decide, by decide⟩
  rw [writeLoop_16_cons, writeLoop_16_cons, writeLoop_nil, h1, h2]
  decide

/-- The 16-bit encodings of `1/4` and `1/2`: the products `8191.75` and
`16383.5` lose their fraction. -/
theorem encodeSample_16_fractions (oor : ℚ → Int) :
    encodeSample oor 16 (1 / 4) = 8191 ∧ encodeSample oor 16 (1 / 2) = 16383 := by
  have e1 : f32round (1 / 4 * 32767) = 32767 / 4 := by
    have := f32round_of_near (1 / 4 * 32767) 12 16776704 (by norm_num)
      (by norm_num [abs_of_pos]) (by norm_num [abs_of_pos]) (by norm_num [abs_of_pos])
    rw [this]; norm_num
  have e2 : f32round (1 / 2 * 32767) = 32767 / 2 := by
    have := f32round_of_near (1 / 2 * 32767) 13 16776704 (by norm_num)
      (by norm_num [abs_of_pos]) (by norm_num [abs_of_pos]) (by norm_num [abs_of_pos])
    rw [this]; norm_num
  have t1 : truncToZero (32767 / 4) = 8191 := by
    unfold truncToZero
    rw [if_pos (by norm_num), Int.floor_eq_iff]
    norm_num
  have t2 : truncToZero (32767 / 2) = 16383 := by
    unfold truncToZero
    rw [if_pos (by norm_num), Int.floor_eq_iff]
    norm_num
  constructor
  · unfold encodeSample f32mul castInt
    rw [f32ofInt_max_16, e1, t1, if_pos (by norm_num)]
  · unfold encodeSample f32mul castInt
    rw [f32ofInt_max_16, e2, t2, if_pos (by norm_num)]

/-- C7 (as stated, refuted): at 16 bits the sample `1/4`, whose product with
32767 is `8191.75`, is stored as `8191`, while the nearest integer is `8192`;
the sample `1/2` of the claim is stored as `16383`, the truncated value. -/
theorem C7_encode_rounds_counterexample :
    encodeSample oorZero 16 (1 / 4) ≠ round ((1 / 4 : ℚ) * ((int_max 16 : Int) : ℚ))
      ∧ encodeSample oorZero 16 (1 / 4) = 8191
      ∧ round ((1 / 4 : ℚ) * ((int_max 16 : Int) : ℚ)) = 8192
      ∧ encodeSample oorZero 16 (1 / 2) = 16383 := by
  obtain ⟨h1, h2⟩ := encodeSample_16_fractions oorZero
  have hr : round ((1 / 4 : ℚ) * ((int_max 16 : Int) : ℚ)) = 8192 := by
    rw [int_max_16, round_eq, Int.floor_eq_iff]
    norm_num
  refine ⟨by rw [h1, hr]; decide, h1, hr, h2⟩

/-- C7 (amended): the integer `File::Write` stores for a sample `x` is the float
product of `x` and the float value of the limit, truncated toward zero: with the
limits 127 and 32767 for every `|x| ≤ 1` at 8 and 16 bits; at 32 bits the limit
becomes 2147483648 as a float and the statement holds for `-1 ≤ x ≤ 1 - 2^-24`,
that is up to the largest float below 1. -/
theorem C7_encode_truncates (oor : ℚ → Int) (x : ℚ) :
    (|x| ≤ 1 → encodeSample oor 8 x = truncToZero (f32round (x * 127)))
      ∧ (|x| ≤ 1 → encodeSample oor 16 x = truncToZero (f32round (x * 32767)))
      ∧ (-1 ≤ x → x ≤ 1 - 1 / 16777216 →
          encodeSample oor 32 x = truncToZero (f32round (x * 2147483648))) := by
  refine ⟨fun hx => ?_, fun hx => ?_, fun h1 h2 => ?_⟩
  · obtain ⟨a, b⟩ := product_range_8 x hx
    obtain ⟨c, d⟩ := truncToZero_bounds _ (-127) 127 (by norm_num) (by norm_num) a b
    unfold encodeSample f32mul castInt
    rw [f32ofInt_max_8, if_pos (by constructor <;> norm_num <;> omega)]
  · obtain ⟨a, b⟩ := product_range_16 x hx
    obtain ⟨c, d⟩ := truncToZero_bounds _ (-32767) 32767 (by norm_num) (by norm_num) a b
    unfold encodeSample f32mul castInt
    rw [f32ofInt_max_16, if_pos (by constructor <;> norm_num <;> omega)]
  · obtain ⟨a, b⟩ := product_range_32 x h1 h2
    obtain ⟨c, d⟩ := truncToZero_bounds _ (-2147483648) 2147483520 (by norm_num) (by norm_num)
      a b
    unfold encodeSample f32mul castInt
    rw [f32ofInt_max_32, if_pos (by constructor <;> norm_num <;> omega)]

/-- C7 witness: the sample `1/2` at the three depths. -/
theorem C7_encode_truncates_witness :
    encodeSample oorZero 8 (1 / 2) = truncToZero (f32round (1 / 2 * 127))
      ∧ encodeSample oorZero 16 (1 / 2) = truncToZero (f32round (1 / 2 * 32767))
      ∧ encodeSample oorZero 32 (1 / 2) = truncToZero (f32round (1 / 2 * 2147483648)) :=
  ⟨(C7_encode_truncates oorZero (1 / 2)).1 (by norm_num [abs_of_pos]),
   (C7_encode_truncates oorZero (1 / 2)).2.1 (by norm_num [abs_of_pos]),
   (C7_encode_truncates oorZero (1 / 2)).2.2 (by norm_num) (by norm_num)⟩

/-! ## C3: the 16-bit round trip -/

theorem toBytes_length (h : WAVEHeader) : h.toBytes.length = 44 := by
  simp [WAVEHeader.toBytes, Tag.toBytes, leBytes_length]

theorem u32_leNat_leBytes (n : U32) : u32 (leNat (leBytes 4 n.val)) = n := by
  apply Fin.ext
  have := n.isLt
  simp only [u32, leNat_leBytes]
  omega

theorem u16_leNat_leBytes (n : U16) : u16 (leNat (leBytes 2 n.val)) = n := by
  apply Fin.ext
  have := n.isLt
  simp only [u16, leNat_leBytes]
  omega

/-- The header object is recovered from its 44 bytes, whatever follows them. -/
theorem ofBytes_toBytes_append (h : WAVEHeader) (tail : List Byte) :
    WAVEHeader.ofBytes (h.toBytes ++ tail) = h := by
  obtain ⟨⟨⟨a0, a1, a2, a3⟩, cs, ⟨b0, b1, b2, b3⟩⟩,
    ⟨⟨c0, c1, c2, c3⟩, s1, af, nc, sr, br, bb, bp⟩, ⟨⟨d0, d1, d2, d3⟩, s2⟩⟩ := h
  have e1 := u32_leNat_leBytes cs
  have e2 := u32_leNat_leBytes s1
  have e3 := u16_leNat_leBytes af
  have e4 := u16_leNat_leBytes nc
  have e5 := u32_leNat_leBytes sr
  have e6 := u32_leNat_leBytes br
  have e7 := u16_leNat_leBytes bb
  have e8 := u16_leNat_leBytes bp
  have e9 := u32_leNat_leBytes s2
  simp only [leBytes] at e1 e2 e3 e4 e5 e6 e7 e8 e9
  simp only [WAVEHeader.ofBytes, WAVEHeader.toBytes, Tag.toBytes, Tag.ofBytes, slice, leBytes,
    List.cons_append, List.nil_append, List.drop_succ_cons, List.drop_zero, List.take_succ_cons,
    List.take_zero, List.getD_cons_zero, List.getD_cons_succ, e1, e2, e3, e4, e5, e6, e7, e8, e9]

/-- Reading back what the 16-bit sample loop of `File::Write` wrote: one float
per sample, decoded from the integer that was stored for it. -/
theorem readLoop_writeLoop_16 (oor : ℚ → Int) (data : List ℚ) :
    ∀ tail : List Byte,
      readLoop 16 data.length ⟨writeLoop oor 16 data ++ tail, true⟩
        = some (data.map (fun x => Sample.value (decodeSample 16
            (toSigned 16 (leNat (leBytes 2 (ofSigned 16 (encodeSample oor 16 x)))))))) := by
  induction data with
  | nil => intro tail; rfl
  | cons x xs ih =>
    intro tail
    have hlen : (leBytes 2 (ofSigned 16 (encodeSample oor 16 x))).length = 2 :=
      leBytes_length _ _
    have hrd : (IStream.mk (writeLoop oor 16 (x :: xs) ++ tail) true).read 2
        = (leBytes 2 (ofSigned 16 (encodeSample oor 16 x)),
            ⟨writeLoop oor 16 xs ++ tail, true⟩) := by
      rw [writeLoop_16_cons, List.append_assoc,
        IStream.read_good _ 2 (by rw [List.length_append, hlen]; omega),
        List.take_left' hlen, List.drop_left' hlen]
    rw [List.length_cons, readLoop]
    simp only [hrd, ih tail, Option.map_some', List.map_cons]
    rw [sampleOf_full 16 _ hlen]
    simp

/-- The instance `File::Open` leaves after it opened a file that starts with the
bytes of the header `h`. -/
theorem Open_written (s : Storage) (f0 : File) (path : String) (h : WAVEHeader)
    (payload : List Byte) (hc : s.content path = some (h.toBytes ++ payload)) :
    Open s f0 path = ⟨path, h⟩ := by
  have hl : sizeofWAVEHeader ≤ (h.toBytes ++ payload).length := by
    rw [List.length_append, toBytes_length]; unfold sizeofWAVEHeader; omega
  have ht : (h.toBytes ++ payload).take 44 = h.toBytes := List.take_left' (toBytes_length h)
  have hh : WAVEHeader.ofBytes h.toBytes = h := by
    simpa using ofBytes_toBytes_append h []
  unfold Open ReadHeader
  simp only [hc, hl, if_true]
  rw [show sizeofWAVEHeader = 44 from rfl, ht, hh]

/-- C3: a 16-bit file that holds its whole payload is decoded by `File::Read` to
a float sequence; `File::Write` of that sequence on an instance with 16 bits per
sample, followed by `File::Open` and `File::Read` of the written file, gives the
same sequence. Equivalently on values: for every 16-bit signed integer `v` the
integer `File::Write` stores for the float `File::Read` produces for `v` is `v`. -/
theorem C3_roundtrip_16 (oor : ℚ → Int) (s : Storage) (fr fw f0 : File) (bytes : List Byte)
    (h16 : fr.header.fmt.bits_per_sample.val = 16)
    (hopen : s.content fr.path = some bytes)
    (hfull : 44 + fr.header.data.sub_chunk_2_size.val / 2 * 2 ≤ bytes.length)
    (hw16 : fw.header.fmt.bits_per_sample.val = 16)
    (hwr : s.writable fw.path = true) :
    (∃ fr1 xs, Read s fr = Except.ok (fr1, xs.map Sample.value)
        ∧ xs.length = fr.header.data.sub_chunk_2_size.val / 2
        ∧ ∃ fr2, Read (Write oor s fw xs).1 (Open (Write oor s fw xs).1 f0 fw.path)
            = Except.ok (fr2, xs.map Sample.value))
      ∧ ∀ v : Int, -32768 ≤ v → v ≤ 32767 → encodeSample oor 16 (decodeSample 16 v) = v := by
  refine ⟨?_, fun v h1 h2 => encode_decode_16 oor v h1 h2⟩
  -- the first decode
  obtain ⟨fr1, hR⟩ := Read_full s fr bytes (Or.inr (Or.inl h16)) hopen
    (by rw [h16]; exact hfull)
  rw [h16] at hR
  norm_num at hR
  set n := fr.header.data.sub_chunk_2_size.val / 2 with hn
  set v : Nat → Int := fun i => toSigned 16 (leNat (slice bytes (44 + i * 2) 2)) with hv
  have hvr : ∀ i, i < n → -32768 ≤ v i ∧ v i ≤ 32767 := fun i hi =>
    toSigned_16_range _ (slice_length bytes _ 2 (by
      have : (i + 1) * 2 ≤ n * 2 := Nat.mul_le_mul_right _ hi
      omega))
  refine ⟨fr1, (List.range n).map (fun i => decodeSample 16 (v i)), ?_, by simp, ?_⟩
  · rw [hR, List.map_map]
    rfl
  -- the written file and the instance opened on it
  set xs := (List.range n).map (fun i => decodeSample 16 (v i)) with hxs
  have hxl : xs.length = n := by simp [hxs]
  have hn32 : n * 2 < 4294967296 := by
    have := fr.header.data.sub_chunk_2_size.isLt
    omega
  have hW : (Write oor s fw xs).1
      = s.put fw.path ((writeHeader fw.header xs.length).toBytes ++ writeLoop oor 16 xs) := by
    unfold Write
    simp only [hwr, if_true, hw16]
  have hc : (Write oor s fw xs).1.content fw.path
      = some ((writeHeader fw.header xs.length).toBytes ++ writeLoop oor 16 xs) := by
    rw [hW]; simp [Storage.put]
  rw [Open_written _ f0 fw.path _ _ hc]
  -- the second decode
  have hbps : (writeHeader fw.header xs.length).fmt.bits_per_sample.val = 16 := hw16
  have hsz : (writeHeader fw.header xs.length).data.sub_chunk_2_size.val = n * 2 := by
    show (xs.length * (fw.header.fmt.bits_per_sample.val / 8)) % 4294967296 = n * 2
    rw [hw16, hxl]
    norm_num
    exact hn32
  have hrd : (IStream.mk ((writeHeader fw.header xs.length).toBytes ++ writeLoop oor 16 xs)
        true).read sizeofWAVEHeader
      = ((writeHeader fw.header xs.length).toBytes, ⟨writeLoop oor 16 xs, true⟩) := by
    rw [show sizeofWAVEHeader = 44 from rfl,
      IStream.read_good _ 44 (by rw [List.length_append, toBytes_length]; omega),
      List.take_left' (toBytes_length _), List.drop_left' (toBytes_length _)]
  have hloop := readLoop_writeLoop_16 oor xs []
  rw [List.append_nil, hxl] at hloop
  have hmap : xs.map (fun x => Sample.value (decodeSample 16
        (toSigned 16 (leNat (leBytes 2 (ofSigned 16 (encodeSample oor 16 x)))))))
      = xs.map Sample.value := by
    apply List.map_congr_left
    intro x hx
    rw [hxs, List.mem_map] at hx
    obtain ⟨i, hi, rfl⟩ := hx
    rw [List.mem_range] at hi
    obtain ⟨b1, b2⟩ := hvr i hi
    rw [encode_decode_16 oor (v i) b1 b2, toSigned_leBytes_16 (v i) b1 b2]
  rw [hmap] at hloop
  unfold Read
  simp only [hbps, hsz, hc, hrd]
  norm_num
  rw [hloop]
  exact ⟨_, rfl⟩

/-- C3 witness: a 16-bit file with the samples `1` and `-32768`, written back to
`b.wav` and decoded again. -/
theorem C3_roundtrip_16_witness :
    (∃ fr1 xs,
        Read (oneFile "a.wav" ((pcmHeader 16 4).toBytes ++ [1, 0, 0, 128]))
            ⟨"a.wav", pcmHeader 16 4⟩ = Except.ok (fr1, xs.map Sample.value)
        ∧ xs.length = (pcmHeader 16 4).data.sub_chunk_2_size.val / 2
        ∧ ∃ fr2,
            Read (Write oorZero (oneFile "a.wav" ((pcmHeader 16 4).toBytes ++ [1, 0, 0, 128]))
                  ⟨"b.wav", pcmHeader 16 0⟩ xs).1
                (Open (Write oorZero (oneFile "a.wav" ((pcmHeader 16 4).toBytes ++ [1, 0, 0, 128]))
                  ⟨"b.wav", pcmHeader 16 0⟩ xs).1 ⟨"", pcmHeader 8 0⟩ "b.wav")
              = Except.ok (fr2, xs.map Sample.value))
      ∧ encodeSample oorZero 16 (decodeSample 16 (-32768)) = -32768 :=
  ⟨(C3_roundtrip_16 oorZero (oneFile "a.wav" ((pcmHeader 16 4).toBytes ++ [1, 0, 0, 128]))
      ⟨"a.wav", pcmHeader 16 4⟩ ⟨"b.wav", pcmHeader 16 0⟩ ⟨"", pcmHeader 8 0⟩
      ((pcmHeader 16 4).toBytes ++ [1, 0, 0, 128]) (by decide) (by decide) (by decide)
      (by decide) (by decide)).1,
   (C3_roundtrip_16 oorZero (oneFile "a.wav" ((pcmHeader 16 4).toBytes ++ [1, 0, 0, 128]))
      ⟨"a.wav", pcmHeader 16 4⟩ ⟨"b.wav", pcmHeader 16 0⟩ ⟨"", pcmHeader 8 0⟩
      ((pcmHeader 16 4).toBytes ++ [1, 0, 0, 128]) (by decide) (by decide) (by decide)
      (by decide) (by decide)).2 (-32768) (by norm_num) (by norm_num)⟩

/-! ## C19: the accessors -/

/-- C19: each getter called after its setter returns the value set; a setter
leaves the bound path, the RIFF chunk, the data chunk and every other field of
the fmt chunk (byte rate and block align among them) as they were. -/
theorem C19_plain_accessors (f : File) (c : U16) (r : U32) (b : U16) :
    (channel_number (set_channel_number f c) = c
      ∧ sample_rate (set_sample_rate f r) = r
      ∧ bits_per_sample (set_bits_per_sample f b) = b)
    ∧ ((set_channel_number f c).path = f.path
      ∧ (set_channel_number f c).header.riff = f.header.riff
      ∧ (set_channel_number f c).header.data = f.header.data
      ∧ (set_channel_number f c).header.fmt = { f.header.fmt with num_channel := c }
      ∧ (set_channel_number f c).header.fmt.byte_rate = f.header.fmt.byte_rate
      ∧ (set_channel_number f c).header.fmt.byte_per_block = f.header.fmt.byte_per_block
      ∧ (set_channel_number f c).header.fmt.sample_rate = f.header.fmt.sample_rate
      ∧ (set_channel_number f c).header.fmt.bits_per_sample = f.header.fmt.bits_per_sample)
    ∧ ((set_sample_rate f r).path = f.path
      ∧ (set_sample_rate f r).header.riff = f.header.riff
      ∧ (set_sample_rate f r).header.data = f.header.data
      ∧ (set_sample_rate f r).header.fmt = { f.header.fmt with sample_rate := r }
      ∧ (set_sample_rate f r).header.fmt.byte_rate = f.header.fmt.byte_rate
      ∧ (set_sample_rate f r).header.fmt.byte_per_block = f.header.fmt.byte_per_block
      ∧ (set_sample_rate f r).header.fmt.num_channel = f.header.fmt.num_channel
      ∧ (set_sample_rate f r).header.fmt.bits_per_sample = f.header.fmt.bits_per_sample)
    ∧ ((set_bits_per_sample f b).path = f.path
      ∧ (set_bits_per_sample f b).header.riff = f.header.riff
      ∧ (set_bits_per_sample f b).header.data = f.header.data
      ∧ (set_bits_per_sample f b).header.fmt = { f.header.fmt with bits_per_sample := b }
      ∧ (set_bits_per_sample f b).header.fmt.byte_rate = f.header.fmt.byte_rate
      ∧ (set_bits_per_sample f b).header.fmt.byte_per_block = f.header.fmt.byte_per_block
      ∧ (set_bits_per_sample f b).header.fmt.num_channel = f.header.fmt.num_channel
      ∧ (set_bits_per_sample f b).header.fmt.sample_rate = f.header.fmt.sample_rate) :=
  ⟨⟨rfl, rfl, rfl⟩, ⟨rfl, rfl, rfl, rfl, rfl, rfl, rfl, rfl⟩, ⟨rfl, rfl, rfl, rfl, rfl, rfl, rfl, rfl⟩,
    ⟨rfl, rfl, rfl, rfl, rfl, rfl, rfl, rfl⟩⟩

/-! ## C16: the derived fmt fields -/

/-- C16 (as stated, refuted): with 16 bits per sample and 32768 channels the
block align `File::Write` stores is 0, not `32768 * 2`. -/
theorem C16_block_align_overflow_counterexample :
    ¬ ((Write oorZero noFile (set_channel_number ⟨"out.wav", pcmHeader 16 0⟩ 32768)
          [0]).2.header.fmt.byte_per_block.val
        = (32768 : U16).val * (16 / 8)) := by
  decide

/-- C16 (amended): for every bits-per-sample value, channel count `c`, sample
rate `r` and sample sequence, after `File::Write` the block align is
`(bits/8) * c` reduced modulo `2^16` and the byte rate is `r * blockAlign`
reduced modulo `2^32`; they are the unreduced values whenever
`c * (bits/8) < 2^16` and `r * (c * (bits/8)) < 2^32`. Sample rate, channel count
and bits-per-sample keep their values. -/
theorem C16_derived_fmt_fields (oor : ℚ → Int) (s : Storage) (f : File) (data : List ℚ) :
    let bits := f.header.fmt.bits_per_sample.val
    let c := f.header.fmt.num_channel.val
    let r := f.header.fmt.sample_rate.val
    let h := (Write oor s f data).2.header
    h.fmt.byte_per_block.val = (c * (bits / 8)) % 2 ^ 16
      ∧ h.fmt.byte_rate.val = (r * h.fmt.byte_per_block.val) % 2 ^ 32
      ∧ (c * (bits / 8) < 2 ^ 16 → r * (c * (bits / 8)) < 2 ^ 32 →
          h.fmt.byte_per_block.val = c * (bits / 8)
            ∧ h.fmt.byte_rate.val = r * h.fmt.byte_per_block.val)
      ∧ h.fmt.sample_rate = f.header.fmt.sample_rate
      ∧ h.fmt.num_channel = f.header.fmt.num_channel
      ∧ h.fmt.bits_per_sample = f.header.fmt.bits_per_sample := by
  intro bits c r h
  have hh : h = writeHeader f.header data.length := Write_header oor s f data
  have h1 : h.fmt.byte_per_block.val = (c * (bits / 8)) % 2 ^ 16 := by
    rw [hh]
    show ((bits / 8) * c) % 65536 = (c * (bits / 8)) % 2 ^ 16
    rw [Nat.mul_comm]
    rfl
  have h2 : h.fmt.byte_rate.val = (r * h.fmt.byte_per_block.val) % 2 ^ 32 := by
    rw [hh]; rfl
  refine ⟨h1, h2, fun ha hb => ?_, by rw [hh]; rfl, by rw [hh]; rfl, by rw [hh]; rfl⟩
  have h3 : h.fmt.byte_per_block.val = c * (bits / 8) := by
    rw [h1]; exact Nat.mod_eq_of_lt ha
  refine ⟨h3, ?_⟩
  rw [h2, h3]
  exact Nat.mod_eq_of_lt hb

/-- C16 witness: stereo, 44100 Hz, 16 bits. -/
theorem C16_derived_fmt_fields_witness :
    (Write oorZero noFile (set_channel_number ⟨"out.wav", pcmHeader 16 0⟩ 2)
        [0, 0]).2.header.fmt.byte_per_block.val = 2 * (16 / 8)
      ∧ (Write oorZero noFile (set_channel_number ⟨"out.wav", pcmHeader 16 0⟩ 2)
        [0, 0]).2.header.fmt.byte_rate.val
        = 44100 * (Write oorZero noFile (set_channel_number ⟨"out.wav", pcmHeader 16 0⟩ 2)
            [0, 0]).2.header.fmt.byte_per_block.val :=
  (C16_derived_fmt_fields oorZero noFile (set_channel_number ⟨"out.wav", pcmHeader 16 0⟩ 2)
    [0, 0]).2.2.1 (by decide) (by decide)

/-! ## C14 and C15: open on missing or short storage -/

theorem ReadHeader_path (s : Storage) (f : File) : (ReadHeader s f).1.path = f.path := by
  unfold ReadHeader
  split
  · rfl
  · simp only
    split <;> rfl

/-- A path that does not open: `ReadHeader` leaves the instance and returns 0. -/
theorem ReadHeader_none (s : Storage) (f : File) (h : s.content f.path = none) :
    ReadHeader s f = (f, 0) := by
  unfold ReadHeader
  rw [h]

/-- A file of fewer than 44 bytes: `ReadHeader` leaves the instance and returns
the file size. -/
theorem ReadHeader_short (s : Storage) (f : File) (bytes : List Byte)
    (h : s.content f.path = some bytes) (hl : bytes.length < 44) :
    ReadHeader s f = (f, (bytes.length : Int)) := by
  have h1 : ¬ (sizeofWAVEHeader ≤ bytes.length) := by unfold sizeofWAVEHeader; omega
  have h2 : toSigned 32 (bytes.length % 2 ^ 32) = (bytes.length : Int) := by
    unfold toSigned
    have : bytes.length % 2 ^ 32 = bytes.length := Nat.mod_eq_of_lt (by omega)
    rw [this, if_pos (by norm_num; omega)]
  unfold ReadHeader
  simp only [h, h1, if_false, h2]

/-- A file of at least 44 bytes: `ReadHeader` loads the first 44 bytes. -/
theorem ReadHeader_long (s : Storage) (f : File) (bytes : List Byte)
    (h : s.content f.path = some bytes) (hl : 44 ≤ bytes.length) :
    (ReadHeader s f).1 = ⟨f.path, WAVEHeader.ofBytes (bytes.take 44)⟩ := by
  have h1 : sizeofWAVEHeader ≤ bytes.length := hl
  unfold ReadHeader
  simp only [h, h1, if_true]
  rfl

theorem Tag_toBytes_ofBytes (l : List Byte) (hl : l.length = 4) :
    (Tag.ofBytes l).toBytes = l := by
  match l, hl with
  | [_, _, _, _], _ => rfl

theorem leBytes_leNat (l : List Byte) : leBytes l.length (leNat l) = l := by
  induction l with
  | nil => rfl
  | cons b bs ih =>
    have hb := b.isLt
    have h1 : lowByte (b.val + 256 * leNat bs) = b := by
      apply Fin.ext
      show (b.val + 256 * leNat bs) % 256 = b.val
      omega
    have h2 : (b.val + 256 * leNat bs) / 256 = leNat bs := by omega
    simp only [List.length_cons, leNat, leBytes, h1, h2, ih]

theorem leBytes_u32_leNat (l : List Byte) (hl : l.length = 4) :
    leBytes 4 (u32 (leNat l)).val = l := by
  have h := leNat_lt l
  rw [hl] at h
  have : (u32 (leNat l)).val = leNat l := Nat.mod_eq_of_lt (by norm_num at h ⊢; exact h)
  rw [this, ← hl, leBytes_leNat]

theorem leBytes_u16_leNat (l : List Byte) (hl : l.length = 2) :
    leBytes 2 (u16 (leNat l)).val = l := by
  have h := leNat_lt l
  rw [hl] at h
  have : (u16 (leNat l)).val = leNat l := Nat.mod_eq_of_lt (by norm_num at h ⊢; exact h)
  rw [this, ← hl, leBytes_leNat]

/-- The object representation of the header loaded from 44 bytes is those
44 bytes. -/
theorem toBytes_ofBytes (bs : List Byte) (h : bs.length = 44) :
    (WAVEHeader.ofBytes bs).toBytes = bs := by
  have s4 : ∀ off, off + 4 ≤ 44 → (slice bs off 4).length = 4 := fun off ho =>
    slice_length bs off 4 (by omega)
  have s2 : ∀ off, off + 2 ≤ 44 → (slice bs off 2).length = 2 := fun off ho =>
    slice_length bs off 2 (by omega)
  unfold WAVEHeader.toBytes WAVEHeader.ofBytes
  simp only
  rw [Tag_toBytes_ofBytes _ (s4 0 (by norm_num)), leBytes_u32_leNat _ (s4 4 (by norm_num)),
    Tag_toBytes_ofBytes _ (s4 8 (by norm_num)), Tag_toBytes_ofBytes _ (s4 12 (by norm_num)),
    leBytes_u32_leNat _ (s4 16 (by norm_num)), leBytes_u16_leNat _ (s2 20 (by norm_num)),
    leBytes_u16_leNat _ (s2 22 (by norm_num)), leBytes_u32_leNat _ (s4 24 (by norm_num)),
    leBytes_u32_leNat _ (s4 28 (by norm_num)), leBytes_u16_leNat _ (s2 32 (by norm_num)),
    leBytes_u16_leNat _ (s2 34 (by norm_num)), Tag_toBytes_ofBytes _ (s4 36 (by norm_num)),
    leBytes_u32_leNat _ (s4 40 (by norm_num))]
  unfold slice
  rw [List.drop_zero, ← List.take_add, ← List.take_add, ← List.take_add, ← List.take_add,
    ← List.take_add, ← List.take_add, ← List.take_add, ← List.take_add, ← List.take_add,
    ← List.take_add, ← List.take_add, ← List.take_add]
  exact List.take_of_length_le (by omega)

/-- C14: when nothing can be opened at `path`, `File::Open(path, err)` assigns
an error (`bad_file_descriptor`), binds the path and leaves the header as it was
before the call; on a fresh instance that is the default header. -/
theorem C14_validated_open_missing (s : Storage) (f : File) (path : String)
    (h : s.content path = none) :
    (OpenErr s f path).2 = some Errc.bad_file_descriptor
      ∧ (OpenErr s f path).2 ≠ none
      ∧ (OpenErr s f path).1.header = f.header
      ∧ (OpenErr s f path).1.path = path
      ∧ ∀ d : WAVEHeader, (OpenErr s (File.new d) path).1.header = d := by
  have key : ∀ g : File, OpenErr s g path = (⟨path, g.header⟩, some Errc.bad_file_descriptor) := by
    intro g
    have h1 : Open s g path = ⟨path, g.header⟩ := by
      unfold Open
      rw [ReadHeader_none s _ h]
    have h2 : ReadHeader s ⟨path, g.header⟩ = (⟨path, g.header⟩, 0) := ReadHeader_none s _ h
    unfold OpenErr
    simp only [h1, h2]
    rfl
  rw [key f]
  refine ⟨rfl, by simp, rfl, rfl, fun d => ?_⟩
  rw [key (File.new d)]
  rfl

/-- C14 witness: a store without any file and a fresh instance. -/
theorem C14_validated_open_missing_witness :
    (OpenErr noFile (File.new (pcmHeader 16 0)) "missing.wav").2 = some Errc.bad_file_descriptor
      ∧ (OpenErr noFile (File.new (pcmHeader 16 0)) "missing.wav").1.header = pcmHeader 16 0 :=
  ⟨(C14_validated_open_missing noFile (File.new (pcmHeader 16 0)) "missing.wav" rfl).1,
   (C14_validated_open_missing noFile (File.new (pcmHeader 16 0)) "missing.wav" rfl).2.2.1⟩

/-- C15: `File::Open(path)` on a path that does not open or on a file of fewer
than 44 bytes binds the path and leaves the whole header as it was; on a file of
at least 44 bytes it binds the path and the header object becomes the first
44 bytes of the file. -/
theorem C15_untyped_open (s : Storage) (f : File) (path : String) :
    (s.content path = none → Open s f path = ⟨path, f.header⟩)
      ∧ (∀ bytes, s.content path = some bytes → bytes.length < 44 →
          Open s f path = ⟨path, f.header⟩)
      ∧ (∀ bytes, s.content path = some bytes → 44 ≤ bytes.length →
          (Open s f path).path = path ∧ (Open s f path).header.toBytes = bytes.take 44) := by
  refine ⟨fun h => ?_, fun bytes h hl => ?_, fun bytes h hl => ?_⟩
  · unfold Open
    rw [ReadHeader_none s _ h]
  · unfold Open
    rw [ReadHeader_short s _ bytes h hl]
  · unfold Open
    rw [ReadHeader_long s _ bytes h hl]
    exact ⟨rfl, toBytes_ofBytes _ (by rw [List.length_take]; omega)⟩

/-- C15 witness: a missing path, a 3-byte file and a file of 46 bytes. -/
theorem C15_untyped_open_witness :
    Open noFile ⟨"", pcmHeader 8 0⟩ "a.wav" = ⟨"a.wav", pcmHeader 8 0⟩
      ∧ Open (oneFile "a.wav" [1, 2, 3]) ⟨"", pcmHeader 8 0⟩ "a.wav" = ⟨"a.wav", pcmHeader 8 0⟩
      ∧ (Open (oneFile "a.wav" ((pcmHeader 16 2).toBytes ++ [7, 9])) ⟨"", pcmHeader 8 0⟩
          "a.wav").header.toBytes = ((pcmHeader 16 2).toBytes ++ [7, 9]).take 44 :=
  ⟨(C15_untyped_open noFile ⟨"", pcmHeader 8 0⟩ "a.wav").1 rfl,
   (C15_untyped_open (oneFile "a.wav" [1, 2, 3]) ⟨"", pcmHeader 8 0⟩ "a.wav").2.1 [1, 2, 3]
      (by decide) (by decide),
   ((C15_untyped_open (oneFile "a.wav" ((pcmHeader 16 2).toBytes ++ [7, 9]))
      ⟨"", pcmHeader 8 0⟩ "a.wav").2.2 ((pcmHeader 16 2).toBytes ++ [7, 9])
      (by decide) (by decide)).2⟩

/-! ## C20: the written file -/

/-- With a supported depth and a path that opens, `File::Read` returns one
element per declared sample. -/
theorem Read_supported (s : Storage) (f : File) (bytes : List Byte)
    (hb : f.header.fmt.bits_per_sample.val = 8 ∨ f.header.fmt.bits_per_sample.val = 16
      ∨ f.header.fmt.bits_per_sample.val = 32)
    (hopen : s.content f.path = some bytes) :
    ∃ f1 result, Read s f = Except.ok (f1, result)
      ∧ result.length
          = f.header.data.sub_chunk_2_size.val / (f.header.fmt.bits_per_sample.val / 8) := by
  have hne : ¬ (f.header.fmt.bits_per_sample.val / 8 = 0) := by
    rcases hb with hb | hb | hb <;> rw [hb] <;> decide
  obtain ⟨r, hr, hl⟩ := readLoop_length f.header.fmt.bits_per_sample.val hb
    (f.header.data.sub_chunk_2_size.val / (f.header.fmt.bits_per_sample.val / 8))
    ((IStream.mk bytes true).read sizeofWAVEHeader).2
  have hR : ∃ f1, Read s f = Except.ok (f1, r) := by
    unfold Read
    simp only [hne, if_false, hopen, hr]
    exact ⟨_, rfl⟩
  obtain ⟨f1, hR⟩ := hR
  exact ⟨f1, r, hR, hl⟩

/-- With a supported depth the sample loop of `File::Write` hands `bits/8` bytes
per sample to the stream. -/
theorem writeLoop_length (oor : ℚ → Int) (bits : Nat) (hb : bits = 8 ∨ bits = 16 ∨ bits = 32)
    (data : List ℚ) : (writeLoop oor bits data).length = data.length * (bits / 8) := by
  induction data with
  | nil => simp [writeLoop]
  | cons x xs ih =>
    rcases hb with hb | hb | hb <;> subst hb <;>
      simp [writeLoop, leBytes_length, ih, Nat.add_mul, Nat.add_comm]

/-- The file `File::Write` leaves at a path that opens for writing. -/
theorem Write_content (oor : ℚ → Int) (s : Storage) (f : File) (data : List ℚ)
    (hw : s.writable f.path = true) :
    (Write oor s f data).1.content f.path
      = some ((writeHeader f.header data.length).toBytes
          ++ writeLoop oor f.header.fmt.bits_per_sample.val data) := by
  unfold Write
  simp [hw, Storage.put]

/-- C20: for a supported depth, a sequence of `L` samples with
`44 + L * (bits/8) < 2^32` and an output path that opens, `File::Write` leaves a
file of exactly `44 + L * (bits/8)` bytes whose first 44 bytes are the header now
in the instance; the RIFF chunk size in the file is the file length minus 8, the
data chunk size in the file is the file length minus 44, and `File::Read` on the
same instance afterwards returns exactly `L` samples. -/
theorem C20_written_file (oor : ℚ → Int) (s : Storage) (f : File) (data : List ℚ)
    (hb : f.header.fmt.bits_per_sample.val = 8 ∨ f.header.fmt.bits_per_sample.val = 16
      ∨ f.header.fmt.bits_per_sample.val = 32)
    (hlt : 44 + data.length * (f.header.fmt.bits_per_sample.val / 8) < 2 ^ 32)
    (hw : s.writable f.path = true) :
    ∃ bytes, (Write oor s f data).1.content f.path = some bytes
      ∧ bytes.length = 44 + data.length * (f.header.fmt.bits_per_sample.val / 8)
      ∧ bytes.take 44 = (Write oor s f data).2.header.toBytes
      ∧ leNat (slice bytes 4 4) = bytes.length - 8
      ∧ leNat (slice bytes 40 4) = bytes.length - 44
      ∧ ∃ f1 result, Read (Write oor s f data).1 (Write oor s f data).2 = Except.ok (f1, result)
          ∧ result.length = data.length := by
  have hc := Write_content oor s f data hw
  have hh := Write_header oor s f data
  have hp := Write_path oor s f data
  have hlen : ((writeHeader f.header data.length).toBytes
      ++ writeLoop oor f.header.fmt.bits_per_sample.val data).length
      = 44 + data.length * (f.header.fmt.bits_per_sample.val / 8) := by
    rw [List.length_append, toBytes_length, writeLoop_length oor _ hb]
  have hof := ofBytes_toBytes_append (writeHeader f.header data.length)
    (writeLoop oor f.header.fmt.bits_per_sample.val data)
  have hriff : (writeHeader f.header data.length).riff.chunk_size.val
      = 44 + data.length * (f.header.fmt.bits_per_sample.val / 8) - 8 := by
    show (sizeofWAVEHeader + data.length * (f.header.fmt.bits_per_sample.val / 8) - 8)
      % 4294967296 = _
    unfold sizeofWAVEHeader
    exact Nat.mod_eq_of_lt (by norm_num at hlt; omega)
  have hdata : (writeHeader f.header data.length).data.sub_chunk_2_size.val
      = data.length * (f.header.fmt.bits_per_sample.val / 8) := by
    show (data.length * (f.header.fmt.bits_per_sample.val / 8)) % 4294967296 = _
    exact Nat.mod_eq_of_lt (by norm_num at hlt; omega)
  have hbps : (writeHeader f.header data.length).fmt.bits_per_sample
      = f.header.fmt.bits_per_sample := rfl
  refine ⟨_, hc, hlen, ?_, ?_, ?_, ?_⟩
  · rw [hh]; exact List.take_left' (toBytes_length _)
  · have h4 := leNat_lt (slice ((writeHeader f.header data.length).toBytes
        ++ writeLoop oor f.header.fmt.bits_per_sample.val data) 4 4)
    rw [slice_length _ 4 4 (by rw [hlen]; omega)] at h4
    have e : (WAVEHeader.ofBytes ((writeHeader f.header data.length).toBytes
        ++ writeLoop oor f.header.fmt.bits_per_sample.val data)).riff.chunk_size.val
        = (writeHeader f.header data.length).riff.chunk_size.val := by rw [hof]
    have e2 : (leNat (slice ((writeHeader f.header data.length).toBytes
        ++ writeLoop oor f.header.fmt.bits_per_sample.val data) 4 4)) % 4294967296
        = (writeHeader f.header data.length).riff.chunk_size.val := e
    rw [hlen, ← hriff, ← e2]
    exact (Nat.mod_eq_of_lt (by norm_num at h4 ⊢; exact h4)).symm
  · have h4 := leNat_lt (slice ((writeHeader f.header data.length).toBytes
        ++ writeLoop oor f.header.fmt.bits_per_sample.val data) 40 4)
    rw [slice_length _ 40 4 (by rw [hlen]; omega)] at h4
    have e : (WAVEHeader.ofBytes ((writeHeader f.header data.length).toBytes
        ++ writeLoop oor f.header.fmt.bits_per_sample.val data)).data.sub_chunk_2_size.val
        = (writeHeader f.header data.length).data.sub_chunk_2_size.val := by rw [hof]
    have e2 : (leNat (slice ((writeHeader f.header data.length).toBytes
        ++ writeLoop oor f.header.fmt.bits_per_sample.val data) 40 4)) % 4294967296
        = (writeHeader f.header data.length).data.sub_chunk_2_size.val := e
    rw [hlen, Nat.add_sub_cancel_left, ← hdata, ← e2]
    exact (Nat.mod_eq_of_lt (by norm_num at h4 ⊢; exact h4)).symm
  · obtain ⟨f1, r, h1, h2⟩ := Read_supported (Write oor s f data).1 (Write oor s f data).2
      _ (by rw [hh, hbps]; exact hb) (by rw [hp]; exact hc)
    refine ⟨f1, r, h1, ?_⟩
    rw [h2, hh, hdata, hbps]
    have hpos : 0 < f.header.fmt.bits_per_sample.val / 8 := by
      rcases hb with hb | hb | hb <;> rw [hb] <;> decide
    exact Nat.mul_div_cancel _ hpos

/-- C20 witness: three samples at 16 bits. -/
theorem C20_written_file_witness :
    ∃ bytes, (Write oorZero noFile ⟨"out.wav", pcmHeader 16 0⟩ [0, 1, -1]).1.content "out.wav"
        = some bytes
      ∧ bytes.length = 44 + 3 * (16 / 8)
      ∧ leNat (slice bytes 4 4) = bytes.length - 8
      ∧ leNat (slice bytes 40 4) = bytes.length - 44
      ∧ ∃ f1 result,
          Read (Write oorZero noFile ⟨"out.wav", pcmHeader 16 0⟩ [0, 1, -1]).1
              (Write oorZero noFile ⟨"out.wav", pcmHeader 16 0⟩ [0, 1, -1]).2
            = Except.ok (f1, result)
          ∧ result.length = 3 := by
  obtain ⟨bytes, h1, h2, _, h4, h5, h6⟩ :=
    C20_written_file oorZero noFile ⟨"out.wav", pcmHeader 16 0⟩ [0, 1, -1]
      (Or.inr (Or.inl rfl)) (by decide) rfl
  exact ⟨bytes, h1, h2, h4, h5, h6⟩

/-! ## C17: a payload shorter than declared -/

/-- C17 (the code at the failing input): the header declares 4 data bytes (two
16-bit samples), the file holds the header and 2 payload bytes. `File::Read`
returns two elements; the second is converted from the local `value` that the
failed `stream.read` never filled. -/
theorem C17_short_payload_indeterminate :
    ∃ f1, Read (oneFile "a.wav" ((pcmHeader 16 4).toBytes ++ [1, 0])) ⟨"a.wav", pcmHeader 16 4⟩
      = Except.ok (f1, [Sample.value (decodeSample 16 1), Sample.indeterminate]) :=
  ⟨_, rfl⟩

/-! ## C18: the minimum integer -/

/-- The float `File::Read` produces for the 16-bit integer `-32768`: the float
nearest to `-32768 / 32767`. -/
theorem decodeSample_16_min : decodeSample 16 (-32768) = -32769 / 32768 := by
  rw [decodeSample_16 (-32768) (by norm_num)]
  have := f32round_of_near (((-32768 : Int) : ℚ) / 32767) 0 (-8388864) (by norm_num)
    (by norm_num [abs_of_pos]) (by norm_num [abs_of_pos]) (by norm_num [abs_lt])
  rw [this]; norm_num

/-- A sample in `[-1, 1]` is stored at 16 bits as an integer in
`[-32767, 32767]`. -/
theorem encodeSample_16_range (oor : ℚ → Int) (x : ℚ) (hx : |x| ≤ 1) :
    -32767 ≤ encodeSample oor 16 x ∧ encodeSample oor 16 x ≤ 32767 := by
  obtain ⟨a, b⟩ := product_range_16 x hx
  obtain ⟨c, d⟩ := truncToZero_bounds _ (-32767) 32767 (by norm_num) (by norm_num) a b
  unfold encodeSample f32mul castInt
  rw [f32ofInt_max_16, if_pos (by constructor <;> norm_num <;> omega)]
  exact ⟨c, d⟩

/-- C18 (as stated, refuted): the float decoded from the 16-bit integer `-32768`
is encoded back to `-32768`. -/
theorem C18_min_integer_counterexample :
    ¬ (encodeSample oorZero 16 (decodeSample 16 (-32768)) ≠ -32768) := by
  rw [encode_decode_16 oorZero (-32768) (by norm_num) (by norm_num)]
  simp

/-- C18 (amended): at 16 bits the float `File::Read` produces for the stored
integer `-32768` is `-32769/32768` (the float nearest to `-32768/32767`, below
`-1`), and `File::Write` encodes that float back to `-32768`. The asymmetry is
on the side of the samples: `-1.0` is stored as `-32767`, and no sample `x` with
`|x| ≤ 1` is stored as `-32768`. -/
theorem C18_min_integer (oor : ℚ → Int) :
    decodeSample 16 (-32768) = -32769 / 32768
      ∧ encodeSample oor 16 (decodeSample 16 (-32768)) = -32768
      ∧ encodeSample oor 16 (-1) = -32767
      ∧ ∀ x : ℚ, |x| ≤ 1 → encodeSample oor 16 x ≠ -32768 := by
  refine ⟨decodeSample_16_min, encode_decode_16 oor (-32768) (by norm_num) (by norm_num),
    (encodeSample_16_full_scale oor).2, fun x hx h => ?_⟩
  have := (encodeSample_16_range oor x hx).1
  omega

/-- C18 witness: the sample `-1/2`. -/
theorem C18_min_integer_witness : encodeSample oorZero 16 (-1 / 2) ≠ -32768 :=
  (C18_min_integer oorZero).2.2.2 (-1 / 2) (by norm_num [abs_le])

/-! ## Validated open and validated decode: shared lemmas -/

theorem toSizeT_natCast (n : Nat) (h : n < 2 ^ 64) : toSizeT (n : Int) = n := by
  unfold toSizeT
  have : ((n : Int) % 2 ^ 64) = n := Int.emod_eq_of_lt (by omega) (by exact_mod_cast h)
  rw [this]
  simp

theorem OpenErr_instance (s : Storage) (f : File) (path : String) :
    (OpenErr s f path).1 = (ReadHeader s (Open s f path)).1 := by
  unfold OpenErr
  simp only
  split_ifs <;> rfl

theorem Open_path (s : Storage) (f : File) (path : String) : (Open s f path).path = path := by
  unfold Open
  rw [ReadHeader_path]

theorem OpenErr_path (s : Storage) (f : File) (path : String) :
    (OpenErr s f path).1.path = path := by
  rw [OpenErr_instance, ReadHeader_path, Open_path]

/-- Validated open of a path that does not open. -/
theorem OpenErr_missing (s : Storage) (f : File) (path : String) (h : s.content path = none) :
    OpenErr s f path = (⟨path, f.header⟩, some Errc.bad_file_descriptor) := by
  have h1 : Open s f path = ⟨path, f.header⟩ := by
    unfold Open
    rw [ReadHeader_none s _ h]
  have h2 : ReadHeader s ⟨path, f.header⟩ = (⟨path, f.header⟩, 0) := ReadHeader_none s _ h
  unfold OpenErr
  simp only [h1, h2]
  rfl

/-- Validated open of a file of fewer than 44 bytes. -/
theorem OpenErr_short (s : Storage) (f : File) (path : String) (bytes : List Byte)
    (h : s.content path = some bytes) (hl : bytes.length < 44) :
    OpenErr s f path = (⟨path, f.header⟩, some Errc.bad_file_descriptor) := by
  have h1 : Open s f path = ⟨path, f.header⟩ := by
    unfold Open
    rw [ReadHeader_short s _ bytes h hl]
  have h2 : ReadHeader s ⟨path, f.header⟩ = (⟨path, f.header⟩, (bytes.length : Int)) :=
    ReadHeader_short s _ bytes h hl
  have h3 : toSizeT (bytes.length : Int) < sizeofWAVEHeader := by
    rw [toSizeT_natCast _ (by omega)]
    exact hl
  unfold OpenErr
  simp only [h1, h2, h3, if_true]

/-- The instance validated open leaves on a file of at least 44 bytes. -/
theorem OpenErr_instance_long (s : Storage) (f : File) (path : String) (bytes : List Byte)
    (h : s.content path = some bytes) (hl : 44 ≤ bytes.length) :
    (OpenErr s f path).1 = ⟨path, WAVEHeader.ofBytes (bytes.take 44)⟩ := by
  have h1 : Open s f path = ⟨path, WAVEHeader.ofBytes (bytes.take 44)⟩ := by
    unfold Open
    rw [ReadHeader_long s _ bytes h hl]
  rw [OpenErr_instance, h1, ReadHeader_long s _ bytes h hl]

/-- A string read from a `char*` that comes out 4 characters long is the 4 bytes
at that place. -/
theorem cstr_eq_slice (mem : List Byte) (off : Nat) (out : List Byte)
    (h : cstr mem off = out) (hl : out.length = 4) : slice mem off 4 = out := by
  have hp : out <+: mem.drop off := by
    rw [← h]
    exact List.takeWhile_prefix _
  have := List.prefix_iff_eq_take.mp hp
  rw [hl] at this
  exact this.symm

theorem slice_take (bs : List Byte) (off : Nat) (ho : off + 4 ≤ 44) :
    slice (bs.take 44) off 4 = slice bs off 4 := by
  unfold slice
  rw [List.drop_take, List.take_take, Nat.min_eq_left (by omega)]

/-- When validated open gets past its four id comparisons, the four id fields
of the file are `RIFF`, `WAVE`, `fmt ` and `data`. -/
theorem ids_of_cstr (bytes : List Byte) (hl : 44 ≤ bytes.length)
    (h0 : cstr (WAVEHeader.ofBytes (bytes.take 44)).toBytes 0 = RIFF)
    (h8 : cstr (WAVEHeader.ofBytes (bytes.take 44)).toBytes 8 = WAVE)
    (h12 : cstr (WAVEHeader.ofBytes (bytes.take 44)).toBytes 12 = FMT)
    (h36 : cstr (WAVEHeader.ofBytes (bytes.take 44)).toBytes 36 = DATA) :
    slice bytes 0 4 = RIFF ∧ slice bytes 8 4 = WAVE ∧ slice bytes 12 4 = FMT
      ∧ slice bytes 36 4 = DATA := by
  have ht : (WAVEHeader.ofBytes (bytes.take 44)).toBytes = bytes.take 44 :=
    toBytes_ofBytes _ (by rw [List.length_take]; omega)
  rw [ht] at h0 h8 h12 h36
  refine ⟨?_, ?_, ?_, ?_⟩
  · rw [← slice_take bytes 0 (by norm_num)]; exact cstr_eq_slice _ _ _ h0 rfl
  · rw [← slice_take bytes 8 (by norm_num)]; exact cstr_eq_slice _ _ _ h8 rfl
  · rw [← slice_take bytes 12 (by norm_num)]; exact cstr_eq_slice _ _ _ h12 rfl
  · rw [← slice_take bytes 36 (by norm_num)]; exact cstr_eq_slice _ _ _ h36 rfl

/-- On a file of at least 44 bytes with an id field that is not its expected
text, validated open assigns `bad_file_descriptor`. -/
theorem OpenErr_id_mismatch (s : Storage) (f : File) (path : String) (bytes : List Byte)
    (h : s.content path = some bytes) (hl : 44 ≤ bytes.length)
    (hm : slice bytes 0 4 ≠ RIFF ∨ slice bytes 8 4 ≠ WAVE ∨ slice bytes 12 4 ≠ FMT
      ∨ slice bytes 36 4 ≠ DATA) :
    (OpenErr s f path).2 = some Errc.bad_file_descriptor := by
  have h1 : Open s f path = ⟨path, WAVEHeader.ofBytes (bytes.take 44)⟩ := by
    unfold Open
    rw [ReadHeader_long s _ bytes h hl]
  have h2 : (ReadHeader s ⟨path, WAVEHeader.ofBytes (bytes.take 44)⟩).1
      = ⟨path, WAVEHeader.ofBytes (bytes.take 44)⟩ := ReadHeader_long s _ bytes h hl
  unfold OpenErr
  simp only [h1, h2]
  split_ifs with c1 c2 c3 c4 c5 c6
  · rfl
  · rfl
  · rfl
  · rfl
  · rfl
  · obtain ⟨a, b, c, d⟩ := ids_of_cstr bytes hl (not_not.mp c2) (not_not.mp c3)
      (not_not.mp c4) (not_not.mp c5)
    rcases hm with hm | hm | hm | hm
    · exact absurd a hm
    · exact absurd b hm
    · exact absurd c hm
    · exact absurd d hm
  · obtain ⟨a, b, c, d⟩ := ids_of_cstr bytes hl (not_not.mp c2) (not_not.mp c3)
      (not_not.mp c4) (not_not.mp c5)
    rcases hm with hm | hm | hm | hm
    · exact absurd a hm
    · exact absurd b hm
    · exact absurd c hm
    · exact absurd d hm

/-- What a validated open without error implies: the path opens and the depth
now in the instance is 8, 16 or 32. -/
theorem OpenErr_none_inv (s : Storage) (f : File) (path : String)
    (h : (OpenErr s f path).2 = none) :
    (∃ bytes, s.content path = some bytes)
      ∧ ((OpenErr s f path).1.header.fmt.bits_per_sample.val = 8
        ∨ (OpenErr s f path).1.header.fmt.bits_per_sample.val = 16
        ∨ (OpenErr s f path).1.header.fmt.bits_per_sample.val = 32) := by
  constructor
  · cases hc : s.content path with
    | none =>
      rw [OpenErr_missing s f path hc] at h
      simp at h
    | some bytes => exact ⟨bytes, rfl⟩
  · rw [OpenErr_instance]
    unfold OpenErr at h
    simp only at h
    split_ifs at h with c1 c2 c3 c4 c5 c6
    omega

/-- The value validated open assigns is `bad_file_descriptor` in every case:
`not_supported` lies behind the four id comparisons, which never pass together. -/
theorem OpenErr_bad_file_descriptor (s : Storage) (f : File) (path : String) :
    (OpenErr s f path).2 = some Errc.bad_file_descriptor := by
  unfold OpenErr
  simp only
  split_ifs with h1 h2 h3 h4 h5 h6
  · rfl
  · rfl
  · rfl
  · rfl
  · rfl
  · exact absurd ⟨not_not.mp h3, not_not.mp h4⟩ (cstr_WAVE_FMT_exclusive _)
  · exact absurd ⟨not_not.mp h3, not_not.mp h4⟩ (cstr_WAVE_FMT_exclusive _)

/-! ## C11: validated decode -/

/-- C11: `File::Read(err)` assigns `io_error` exactly when the bound path does
not open, and then returns the empty vector and leaves the instance as it was;
when the path opens it assigns nothing and its outcome is the outcome of the
untyped `File::Read()`. When validated open of a path assigned no error, the
validated decode that follows assigns none either. -/
theorem C11_validated_read (s : Storage) (f : File) :
    ((∃ f1 result, ReadErr s f = Except.ok (f1, result, some Errc.io_error))
        ↔ s.content f.path = none)
      ∧ (s.content f.path = none → ReadErr s f = Except.ok (f, [], some Errc.io_error))
      ∧ (s.content f.path ≠ none →
          ReadErr s f = (Read s f).map (fun r => (r.1, r.2, none)))
      ∧ (∀ (f0 : File) (path : String), (OpenErr s f0 path).2 = none →
          ∃ f1 result, ReadErr s (OpenErr s f0 path).1 = Except.ok (f1, result, none)) := by
  refine ⟨⟨?_, fun h => ⟨f, [], ?_⟩⟩, fun h => ?_, fun h => ?_, fun f0 path h => ?_⟩
  · rintro ⟨f1, r, h⟩
    cases hc : s.content f.path with
    | none => rfl
    | some bytes =>
      unfold ReadErr at h
      simp only [hc] at h
      cases hR : Read s f with
      | error e => rw [hR] at h; simp [Except.map] at h
      | ok v => rw [hR] at h; simp [Except.map] at h
  · unfold ReadErr; rw [h]
  · unfold ReadErr; rw [h]
  · cases hc : s.content f.path with
    | none => exact absurd hc h
    | some bytes => unfold ReadErr; rw [hc]
  · obtain ⟨⟨bytes, hb⟩, hd⟩ := OpenErr_none_inv s f0 path h
    have hp := OpenErr_path s f0 path
    obtain ⟨f1, r, hR, _⟩ := Read_supported s (OpenErr s f0 path).1 bytes hd (by rw [hp]; exact hb)
    refine ⟨f1, r, ?_⟩
    unfold ReadErr
    rw [hp, hb]
    simp only
    rw [hR]
    rfl

/-- C11 witness: a missing path, and a file that opens. -/
theorem C11_validated_read_witness :
    ReadErr noFile ⟨"a.wav", pcmHeader 16 0⟩
        = Except.ok (⟨"a.wav", pcmHeader 16 0⟩, [], some Errc.io_error)
      ∧ ReadErr (oneFile "a.wav" (pcmHeader 16 0).toBytes) ⟨"a.wav", pcmHeader 16 0⟩
        = (Read (oneFile "a.wav" (pcmHeader 16 0).toBytes) ⟨"a.wav", pcmHeader 16 0⟩).map
            (fun r => (r.1, r.2, none)) :=
  ⟨(C11_validated_read noFile ⟨"a.wav", pcmHeader 16 0⟩).2.1 rfl,
   (C11_validated_read (oneFile "a.wav" (pcmHeader 16 0).toBytes)
      ⟨"a.wav", pcmHeader 16 0⟩).2.2.1 (by decide)⟩

/-! ## C12: the error values of validated open -/

/-- C12 (as stated, refuted): a 4-byte file and a 44-byte file whose RIFF id
reads `RIFX` are reported by the same error value, `bad_file_descriptor`: the
error of a short file is not distinguishable from that of a bad signature. -/
theorem C12_same_error_value_counterexample :
    (OpenErr (oneFile "a.wav" [82, 73, 70, 70]) ⟨"", pcmHeader 16 0⟩ "a.wav").2
        = some Errc.bad_file_descriptor
      ∧ (OpenErr (oneFile "a.wav" (withRiffId (pcmHeader 16 0) ⟨82, 73, 70, 88⟩).toBytes)
          ⟨"", pcmHeader 16 0⟩ "a.wav").2 = some Errc.bad_file_descriptor
      ∧ ¬ ((OpenErr (oneFile "a.wav" [82, 73, 70, 70]) ⟨"", pcmHeader 16 0⟩ "a.wav").2
        ≠ (OpenErr (oneFile "a.wav" (withRiffId (pcmHeader 16 0) ⟨82, 73, 70, 88⟩).toBytes)
          ⟨"", pcmHeader 16 0⟩ "a.wav").2) := by
  refine ⟨by decide, by decide, by decide⟩

/-- C12 (amended): validated open checks in the order size, ids, depth and has
two error values. A path that does not open or a file of fewer than 44 bytes
gives `bad_file_descriptor`; a file of at least 44 bytes with an id field at
offset 0, 8, 12 or 36 that is not `RIFF`, `WAVE`, `fmt `, `data` gives
`bad_file_descriptor` too, whatever its bit depth; `not_supported`, a different
value, is assigned only with a depth that is none of 8, 16, 32. -/
theorem C12_open_error_classes (s : Storage) (f : File) (path : String) :
    (s.content path = none → (OpenErr s f path).2 = some Errc.bad_file_descriptor)
      ∧ (∀ bytes, s.content path = some bytes → bytes.length < 44 →
          (OpenErr s f path).2 = some Errc.bad_file_descriptor)
      ∧ (∀ bytes, s.content path = some bytes → 44 ≤ bytes.length →
          (slice bytes 0 4 ≠ RIFF ∨ slice bytes 8 4 ≠ WAVE ∨ slice bytes 12 4 ≠ FMT
            ∨ slice bytes 36 4 ≠ DATA) →
          (OpenErr s f path).2 = some Errc.bad_file_descriptor)
      ∧ ((OpenErr s f path).2 = some Errc.not_supported →
          (OpenErr s f path).1.header.fmt.bits_per_sample.val ≠ 8
            ∧ (OpenErr s f path).1.header.fmt.bits_per_sample.val ≠ 16
            ∧ (OpenErr s f path).1.header.fmt.bits_per_sample.val ≠ 32)
      ∧ Errc.bad_file_descriptor ≠ Errc.not_supported := by
  refine ⟨fun h => ?_, fun bytes h hl => ?_, fun bytes h hl hm => ?_, fun h => ?_, by decide⟩
  · rw [OpenErr_missing s f path h]
  · rw [OpenErr_short s f path bytes h hl]
  · exact OpenErr_id_mismatch s f path bytes h hl hm
  · rw [OpenErr_instance]
    unfold OpenErr at h
    simp only at h
    split_ifs at h with c1 c2 c3 c4 c5 c6
    all_goals first
      | exact c6
      | (exfalso; simp at h)

/-- C12 witness: a missing path, a 4-byte file, and a 44-byte file whose RIFF id
reads `RIFX` and whose depth is 24 bits. -/
theorem C12_open_error_classes_witness :
    (OpenErr noFile ⟨"", pcmHeader 16 0⟩ "a.wav").2 = some Errc.bad_file_descriptor
      ∧ (OpenErr (oneFile "a.wav" [82, 73, 70, 70]) ⟨"", pcmHeader 16 0⟩ "a.wav").2
          = some Errc.bad_file_descriptor
      ∧ (OpenErr (oneFile "a.wav" (withRiffId (pcmHeader 24 0) ⟨82, 73, 70, 88⟩).toBytes)
          ⟨"", pcmHeader 16 0⟩ "a.wav").2 = some Errc.bad_file_descriptor :=
  ⟨(C12_open_error_classes noFile ⟨"", pcmHeader 16 0⟩ "a.wav").1 rfl,
   (C12_open_error_classes (oneFile "a.wav" [82, 73, 70, 70]) ⟨"", pcmHeader 16 0⟩
      "a.wav").2.1 [82, 73, 70, 70] (by decide) (by decide),
   (C12_open_error_classes (oneFile "a.wav" (withRiffId (pcmHeader 24 0) ⟨82, 73, 70, 88⟩).toBytes)
      ⟨"", pcmHeader 16 0⟩ "a.wav").2.2.1 (withRiffId (pcmHeader 24 0) ⟨82, 73, 70, 88⟩).toBytes
      (by decide) (by decide) (Or.inl (by decide))⟩

/-! ## C13: files that are not PCM -/

/-- C13: for every file whose audio format tag (the uint16 at offset 20) is not
1, `File::Open(path, err)` assigns an error, `bad_file_descriptor`. The tag is
never inspected: the error comes from the id comparisons, which refuse every
file. -/
theorem C13_non_pcm_refused (s : Storage) (f : File) (path : String) (bytes : List Byte)
    (_hfile : s.content path = some bytes) (_htag : leNat (slice bytes 20 2) ≠ 1) :
    (OpenErr s f path).2 ≠ none
      ∧ (OpenErr s f path).2 = some Errc.bad_file_descriptor := by
  have h := OpenErr_bad_file_descriptor s f path
  rw [h]
  exact ⟨by simp, rfl⟩

/-- C13 witness: a mu-law file (format tag 7) with the four ids in place and
8 bits per sample. -/
theorem C13_non_pcm_refused_witness :
    leNat (slice (withAudioFormat (pcmHeader 8 0) 7).toBytes 20 2) = 7
      ∧ (OpenErr (oneFile "ulaw.wav" (withAudioFormat (pcmHeader 8 0) 7).toBytes)
          ⟨"", pcmHeader 16 0⟩ "ulaw.wav").2 ≠ none :=
  ⟨by decide,
   (C13_non_pcm_refused (oneFile "ulaw.wav" (withAudioFormat (pcmHeader 8 0) 7).toBytes)
      ⟨"", pcmHeader 16 0⟩ "ulaw.wav" (withAudioFormat (pcmHeader 8 0) 7).toBytes
      (by decide) (by decide)).1⟩

end Wave
